import Mathlib

/-!
# Portal renderer and sector locator of `src/main_doom.c`

A shallow embedding of the column occlusion buffer, the per-column span
draw, the sector membership test, the sector locator, the work list of
`render` and the segment intersection routine.

Conventions of the embedding:

* C `int` values are `Int`; the `u16` cells of `y_lo`/`y_hi` and the `u32`
  pixels are `Nat`, every store into them being reduced modulo `2^16`
  (resp. `2^32`).
* `f32` geometry is idealised to exact rational arithmetic (`ℚ`); the NaN
  pair returned by `intersect_segs` is `none`.
* Functions built on `tan`, `sin`, `atan2` and `floor` of the C library
  (`screen_angle_to_x`, `normalize_angle`, `wallshade`) are idealised to real
  arithmetic (`ℝ`), with `PI` the number pi.
* Arrays are total functions from the index to the cell.
* Values that `render` obtains from floating point code (projected columns,
  interpolated rows, the wall shade) enter the embedding as data
  (`WallView`), so that every statement holds whatever those values are.
-/

set_option autoImplicit false
set_option maxRecDepth 100000

namespace Doom

/-! ## Constants and integer helpers -/

def SCREEN_WIDTH : Int := 384

def SCREEN_HEIGHT : Int := 216

def QUEUE_MAX : Nat := 64

def SECTOR_NONE : Int := 0

/-- The macro `min(_a, _b)`: `__a < __b ? __a : __b`. -/
def cmin (a b : Int) : Int := if a < b then a else b

/-- The macro `max(_a, _b)`: `__a > __b ? __a : __b`. -/
def cmax (a b : Int) : Int := if a > b then a else b

/-- The macro `clamp(_x, _mi, _ma)`: `min(max(_x, _mi), _ma)`. -/
def clamp (x mi ma : Int) : Int := cmin (cmax x mi) ma

/-- Conversion of an `int` to `u16` (store into `y_lo`/`y_hi`). -/
def u16 (v : Int) : Nat := (v % 65536).toNat

/-- Conversion of an `int` to `u32` (argument `a` of `abgr_mul`). -/
def u32 (v : Int) : Nat := (v % 4294967296).toNat

/-- The function `abgr_mul` on `u32` values. -/
def abgr_mul (col a : Nat) : Nat :=
  let br := (((col &&& 0xFF00FF) * a) % 4294967296) >>> 8
  let g := (((col &&& 0x00FF00) * a) % 4294967296) >>> 8
  (0xFF000000 ||| (br &&& 0xFF00FF)) ||| (g &&& 0x00FF00)

/-! ## Frame buffers -/

/-- The part of `state` written by the span draw: the pixel array (indexed
by `y * SCREEN_WIDTH + x`) and the two occlusion arrays. -/
structure State where
  pixels : Int → Nat
  y_lo : Int → Nat
  y_hi : Int → Nat

/-- The loop of `verline`, `k` iterations left, current row `y`. -/
def verline_loop (x : Int) (color : Nat) : Nat → Int → (Int → Nat) → (Int → Nat)
  | 0, _, px => px
  | k + 1, y, px =>
    verline_loop x color k (y + 1) (Function.update px (y * SCREEN_WIDTH + x) color)

/-- The function `verline`: `for (int y = y0; y <= y1; y++) pixels[y * SCREEN_WIDTH + x] = color`. -/
def verline (s : State) (x y0 y1 : Int) (color : Nat) : State :=
  { s with pixels := verline_loop x color (y1 + 1 - y0).toNat y0 s.pixels }

/-- Per-wall values that `render` computes in floating point before the
column loop: the true columns `tx0`, `tx1`, the wall shade, and the
interpolated rows as functions of the column. -/
structure WallView where
  tx0 : Int
  tx1 : Int
  wallshade : Int
  tyf : Int → Int
  tyc : Int → Int
  tnyf : Int → Int
  tnyc : Int → Int

/-- Body of the loop `for (int x = x0; x <= x1; x++)` of `render`. -/
def draw_column (s : State) (portal x0 x1 : Int) (v : WallView) (x : Int) : State :=
  let shade : Int := if x = x0 ∨ x = x1 then 192 else 255 - v.wallshade
  let lo : Int := s.y_lo x
  let hi : Int := s.y_hi x
  let yf := clamp (v.tyf x) lo hi
  let yc := clamp (v.tyc x) lo hi
  let s1 := if yf > lo then verline s x lo yf 0xFFFF0000 else s
  let s2 := if yc < hi then verline s1 x yc hi 0xFF00FFFF else s1
  if portal ≠ 0 then
    let nyf := clamp (v.tnyf x) lo hi
    let nyc := clamp (v.tnyc x) lo hi
    let s3 := verline s2 x nyc yc (abgr_mul 0xFF00FF00 (u32 shade))
    let s4 := verline s3 x yf nyf (abgr_mul 0xFF0000FF (u32 shade))
    let new_hi := u16 (clamp (cmin (cmin yc nyc) (s4.y_hi x)) 0 (SCREEN_HEIGHT - 1))
    let s5 : State := { s4 with y_hi := Function.update s4.y_hi x new_hi }
    let new_lo := u16 (clamp (cmax (cmax yf nyf) (s5.y_lo x)) 0 (SCREEN_HEIGHT - 1))
    { s5 with y_lo := Function.update s5.y_lo x new_lo }
  else
    verline s2 x yf yc (abgr_mul 0xFFD0D0D0 (u32 shade))

/-- The loop `for (int x = x0; x <= x1; x++)`, `k` iterations left. -/
def column_loop (portal x0 x1 : Int) (v : WallView) : Nat → Int → State → State
  | 0, _, s => s
  | k + 1, x, s => column_loop portal x0 x1 v k (x + 1) (draw_column s portal x0 x1 v x)

/-- The column loop of one wall, from `x0` to `x1` inclusive. -/
def draw_columns (s : State) (portal x0 x1 : Int) (v : WallView) : State :=
  column_loop portal x0 x1 v (x1 + 1 - x0).toNat x0 s

/-- The reset at the top of `render`: `y_hi[i] = SCREEN_HEIGHT - 1`,
`y_lo[i] = 0` for `0 <= i < SCREEN_WIDTH`. -/
def reset_bounds (s : State) : State :=
  { s with
    y_hi := fun i => if 0 ≤ i ∧ i < SCREEN_WIDTH then u16 (SCREEN_HEIGHT - 1) else s.y_hi i
    y_lo := fun i => if 0 ≤ i ∧ i < SCREEN_WIDTH then u16 0 else s.y_lo i }

/-- One per-column draw of some wall: the arguments of `draw_column`. -/
structure ColumnDraw where
  portal : Int
  x0 : Int
  x1 : Int
  view : WallView
  x : Int

/-- Apply one per-column draw. -/
def apply_draw (s : State) (d : ColumnDraw) : State :=
  draw_column s d.portal d.x0 d.x1 d.view d.x

/-- Apply a sequence of per-column draws, first to last. -/
def apply_draws (s : State) (ds : List ColumnDraw) : State :=
  ds.foldl apply_draw s

/-- The interpolated rows of a draw are ordered at its column: no floor row
is above a ceiling row (neighbour rows count for a portal wall only). -/
def rows_ordered (d : ColumnDraw) : Prop :=
  d.portal ≠ 0 →
    max (d.view.tyf d.x) (d.view.tnyf d.x) ≤ min (d.view.tyc d.x) (d.view.tnyc d.x)

/-- A view whose four rows are the same constants in every column. -/
def const_view (tx0 tx1 shade tyf tyc tnyf tnyc : Int) : WallView :=
  { tx0 := tx0, tx1 := tx1, wallshade := shade,
    tyf := fun _ => tyf, tyc := fun _ => tyc, tnyf := fun _ => tnyf, tnyc := fun _ => tnyc }

/-- A cleared frame: all pixels 0, occlusion arrays 0 before the reset. -/
def blank : State := { pixels := fun _ => 0, y_lo := fun _ => 0, y_hi := fun _ => 0 }

/-- A portal draw at column 0 whose neighbour floor row (150) lies above the
ceiling row (100) of the current sector. -/
def step_above_ceiling : ColumnDraw :=
  { portal := 2, x0 := 0, x1 := 0, view := const_view 0 0 0 0 100 150 200, x := 0 }

/-- A solid draw at column 3 followed by a portal draw with ordered rows. -/
def ordered_draws : List ColumnDraw :=
  [ { portal := 0, x0 := 3, x1 := 3, view := const_view 3 3 0 10 200 0 0, x := 3 },
    { portal := 2, x0 := 3, x1 := 3, view := const_view 3 3 0 20 180 40 160, x := 3 } ]

/-- A solid wall seen at column 5 only. -/
def solid_view : WallView := const_view 5 5 0 50 150 0 0

/-! ## Geometry and the sector map -/

/-- The struct `v2`, coordinates in exact arithmetic. -/
structure v2 where
  x : ℚ
  y : ℚ

/-- The struct `v2i`. -/
structure v2i where
  x : Int
  y : Int

/-- The macro `v2i_to_v2`. -/
def v2i_to_v2 (v : v2i) : v2 := { x := v.x, y := v.y }

/-- The macro `point_side(_p, _a, _b)`. -/
def point_side (p a b : v2) : ℚ :=
  -(((p.x - a.x) * (b.y - a.y)) - ((p.y - a.y) * (b.x - a.x)))

/-- The function `intersect_segs` in exact arithmetic; `none` is the pair
`(NAN, NAN)`. -/
def intersect_segs (a0 a1 b0 b1 : v2) : Option v2 :=
  let d := ((a0.x - a1.x) * (b0.y - b1.y)) - ((a0.y - a1.y) * (b0.x - b1.x))
  if |d| < 1 / 1000000 then none
  else
    let t := (((a0.x - b0.x) * (b0.y - b1.y)) - ((a0.y - b0.y) * (b0.x - b1.x))) / d
    let u := (((a0.x - b0.x) * (a0.y - a1.y)) - ((a0.y - b0.y) * (a0.x - a1.x))) / d
    if t ≥ 0 ∧ t ≤ 1 ∧ u ≥ 0 ∧ u ≤ 1 then
      some { x := a0.x + (t * (a1.x - a0.x)), y := a0.y + (t * (a1.y - a0.y)) }
    else none

/-- The struct `wall`. -/
structure wall where
  a : v2i
  b : v2i
  portal : Int

/-- The struct `sector`. -/
structure sector where
  id : Int
  firstwall : Nat
  nwalls : Nat
  zfloor : ℚ
  zceil : ℚ

/-- The arrays `state.sectors.arr` (indexed by an `int` sector id) and
`state.walls.arr`. -/
structure SectorMap where
  sectors : Int → sector
  walls : Nat → wall

/-- The loop of `point_in_sector`, `k` iterations left, loop index `i`. -/
def point_in_sector_loop (m : SectorMap) (s : sector) (p : v2) : Nat → Nat → Bool
  | 0, _ => true
  | k + 1, i =>
    if point_side p (v2i_to_v2 (m.walls (s.firstwall + i)).a)
        (v2i_to_v2 (m.walls (s.firstwall + i)).b) > 0 then false
    else point_in_sector_loop m s p k (i + 1)

/-- The function `point_in_sector`. -/
def point_in_sector (m : SectorMap) (s : sector) (p : v2) : Bool :=
  point_in_sector_loop m s p s.nwalls 0

/-! ## Sector locator (block "update player sector" of `main`) -/

/-- The circular queue of the locator: `queue`, front index `i`, count `n`
(`i` and `n` are C `int`s that never leave `0..QUEUE_MAX`). -/
structure LocState where
  queue : Nat → Int
  i : Nat
  n : Nat

/-- The loop "check neighbors" over the walls of the popped sector, `k`
iterations left, loop index `j`; `none` is the `goto done` taken when the
queue is full. -/
def enqueue_neighbors (m : SectorMap) (s : sector) : Nat → Nat → LocState → Option LocState
  | 0, _, st => some st
  | k + 1, j, st =>
    if (m.walls (s.firstwall + j)).portal ≠ 0 then
      if st.n = QUEUE_MAX then none
      else
        enqueue_neighbors m s k (j + 1)
          { st with
            queue := Function.update st.queue ((st.i + st.n) % QUEUE_MAX)
              (m.walls (s.firstwall + j)).portal
            n := st.n + 1 }
    else enqueue_neighbors m s k (j + 1) st

/-- Outcome of the search: the variable `found` at label `done`, and whether
`done` was reached through the full-queue `goto`. -/
structure LocResult where
  found : Int
  overflow : Bool

/-- The loop `while (n != 0)` of the locator, with a bound `fuel` on the
number of iterations; `none` means the bound was reached. -/
def locate_loop (m : SectorMap) (p : v2) : Nat → LocState → Option LocResult
  | 0, _ => none
  | fuel + 1, st =>
    if st.n = 0 then some { found := SECTOR_NONE, overflow := false }
    else
      let id := st.queue st.i
      let st1 : LocState := { st with i := (st.i + 1) % QUEUE_MAX, n := st.n - 1 }
      if point_in_sector m (m.sectors id) p then some { found := id, overflow := false }
      else
        match enqueue_neighbors m (m.sectors id) (m.sectors id).nwalls 0 st1 with
        | none => some { found := SECTOR_NONE, overflow := true }
        | some st2 => locate_loop m p fuel st2

/-- The queue at the start of the search: `{ state.camera.sector }`, `i = 0`,
`n = 1`. -/
def locate_init (cam_sector : Int) : LocState :=
  { queue := fun k => if k = 0 then cam_sector else 0, i := 0, n := 1 }

/-- The search from the camera's last known sector. -/
def locate (m : SectorMap) (p : v2) (cam_sector : Int) (fuel : Nat) : Option LocResult :=
  locate_loop m p fuel (locate_init cam_sector)

/-- The code after label `done`: the new `state.camera.sector`. -/
def new_camera_sector (r : LocResult) : Int :=
  if r.found = 0 then 1 else r.found

/-- The warning "player is not in a sector!" is printed. -/
def warns (r : LocResult) : Bool := decide (r.found = 0)

/-- Sector `b` is entered from sector `a` through a portal wall of `a`. -/
def portal_edge (m : SectorMap) (a b : Int) : Prop :=
  ∃ j, j < (m.sectors a).nwalls ∧
    (m.walls ((m.sectors a).firstwall + j)).portal = b ∧ b ≠ 0

/-- Sector `b` is reached from sector `a` by a chain of `d` portal walls. -/
def reach (m : SectorMap) : Nat → Int → Int → Prop
  | 0, a, b => a = b
  | d + 1, a, b => ∃ c, portal_edge m a c ∧ reach m d c b

/-- The sector ids popped from the front of the queue by the first `fuel`
iterations of the search, in the order they are popped. -/
def visit_order (m : SectorMap) (p : v2) : Nat → LocState → List Int
  | 0, _ => []
  | fuel + 1, st =>
    if st.n = 0 then []
    else
      let id := st.queue st.i
      let st1 : LocState := { st with i := (st.i + 1) % QUEUE_MAX, n := st.n - 1 }
      if point_in_sector m (m.sectors id) p then [id]
      else
        match enqueue_neighbors m (m.sectors id) (m.sectors id).nwalls 0 st1 with
        | none => [id]
        | some st2 => id :: visit_order m p fuel st2

/-- The `t`-th pending entry of the circular queue, counted from the front. -/
def queue_at (st : LocState) (t : Nat) : Int := st.queue ((st.i + t) % QUEUE_MAX)

/-- Well-formed queue: front index and count in range, pending ids non-zero. -/
def good_queue (st : LocState) : Prop :=
  st.i < QUEUE_MAX ∧ st.n ≤ QUEUE_MAX ∧ ∀ t, t < st.n → queue_at st t ≠ 0

/-- The number of portal walls among the walls of loop indices
`j .. j+k-1` of a sector: the number of entries the loop "check neighbors"
has to enqueue for them. -/
def portal_count (m : SectorMap) (s : sector) : Nat → Nat → Nat
  | 0, _ => 0
  | k + 1, j =>
    (if (m.walls (s.firstwall + j)).portal ≠ 0 then 1 else 0) + portal_count m s k (j + 1)

/-- The number of portal walls of the sector `id`. -/
def portals_of (m : SectorMap) (id : Int) : Nat :=
  portal_count m (m.sectors id) (m.sectors id).nwalls 0

/-- The search from queue `st` reaches label `done`. If it got there by the
full-queue `goto`, the pending entries and the portals of the visited
sectors together need more than `QUEUE_MAX` queue cells; otherwise `found`
is a non-zero sector id that contains `p`, and it is the first popped sector
that does. -/
def search_succeeds (m : SectorMap) (p : v2) (st : LocState) : Prop :=
  ∃ fuel r, locate_loop m p fuel st = some r ∧
    (r.overflow = true →
      QUEUE_MAX + (visit_order m p fuel st).length
        < st.n + ((visit_order m p fuel st).map (portals_of m)).sum) ∧
    (r.overflow = false →
      r.found ≠ 0 ∧ point_in_sector m (m.sectors r.found) p = true ∧
      ∃ earlier, visit_order m p fuel st = earlier ++ [r.found] ∧
        ∀ id ∈ earlier, point_in_sector m (m.sectors id) p = false)

/-- The zero-initialised cells of the static arrays. -/
def zero_wall : wall := { a := { x := 0, y := 0 }, b := { x := 0, y := 0 }, portal := 0 }

def zero_sector : sector := { id := 0, firstwall := 0, nwalls := 0, zfloor := 0, zceil := 0 }

/-- Two square rooms, `[0,4]x[0,4]` (sector 1) and `[4,8]x[0,4]` (sector 2),
joined by one portal on the edge `x = 4`. -/
def two_rooms : SectorMap :=
  { sectors := fun id =>
      if id = 1 then { id := 1, firstwall := 0, nwalls := 4, zfloor := 0, zceil := 4 }
      else if id = 2 then { id := 2, firstwall := 4, nwalls := 4, zfloor := 0, zceil := 4 }
      else zero_sector
    walls := fun k =>
      [ ({ a := ⟨0, 0⟩, b := ⟨0, 4⟩, portal := 0 } : wall),
        { a := ⟨0, 4⟩, b := ⟨4, 4⟩, portal := 0 },
        { a := ⟨4, 4⟩, b := ⟨4, 0⟩, portal := 2 },
        { a := ⟨4, 0⟩, b := ⟨0, 0⟩, portal := 0 },
        { a := ⟨4, 0⟩, b := ⟨4, 4⟩, portal := 1 },
        { a := ⟨4, 4⟩, b := ⟨8, 4⟩, portal := 0 },
        { a := ⟨8, 4⟩, b := ⟨8, 0⟩, portal := 0 },
        { a := ⟨8, 0⟩, b := ⟨4, 0⟩, portal := 0 } ].getD k zero_wall }

/-- The diagonals of the square `[0,2]x[0,2]`. -/
def diag_a0 : v2 := { x := 0, y := 0 }

def diag_a1 : v2 := { x := 2, y := 2 }

def diag_b0 : v2 := { x := 0, y := 2 }

def diag_b1 : v2 := { x := 2, y := 0 }

/-- A camera position just outside both rooms: the start position `(3, 3)`
of `main` moved back by 63 steps of `3.0 * 0.016` along the x axis. -/
def outside_point : v2 := { x := 3 - 63 * (3 * (16 / 1000)), y := 3 }

/-- A camera position inside the second room. -/
def room2_point : v2 := { x := 6, y := 2 }

/-! ## The work list of `render` -/

/-- The struct `queue_entry`. -/
structure queue_entry where
  id : Int
  x0 : Int
  x1 : Int

/-- The state of one call of `render`: the frame buffers, the array
`sectdraw`, and the work list `queue` (`arr`, `n`). -/
structure RenderState where
  fb : State
  sectdraw : Int → Bool
  arr : Nat → queue_entry
  n : Nat

/-- The pop `queue.arr[--queue.n]`. -/
def queue_pop (s : RenderState) : queue_entry × RenderState :=
  (s.arr (s.n - 1), { s with n := s.n - 1 })

/-- The push `queue.arr[queue.n++] = e`. -/
def queue_push (s : RenderState) (e : queue_entry) : RenderState :=
  { s with arr := Function.update s.arr s.n e, n := s.n + 1 }

/-- Body of the loop over the walls of a sector, for the wall of loop index
`i`. The map `view` stands for the floating point part of the body: it gives
`none` when the wall is skipped by one of the tests on camera-space
coordinates and angles, and the projected values otherwise. The result is
`Except.error` when the `ASSERT` on the queue size fails. -/
def wall_body (m : SectorMap) (view : Int → Nat → Option WallView) (entry : queue_entry)
    (sec : sector) (i : Nat) (s : RenderState) : Except String RenderState :=
  match view entry.id (sec.firstwall + i) with
  | none => Except.ok s
  | some v =>
    if v.tx0 > entry.x1 then Except.ok s
    else if v.tx1 < entry.x0 then Except.ok s
    else
      let x0 := clamp v.tx0 entry.x0 entry.x1
      let x1 := clamp v.tx1 entry.x0 entry.x1
      let s1 : RenderState :=
        { s with fb := draw_columns s.fb (m.walls (sec.firstwall + i)).portal x0 x1 v }
      if (m.walls (sec.firstwall + i)).portal ≠ 0 then
        if s1.n = QUEUE_MAX then Except.error "out of queue space"
        else
          Except.ok (queue_push s1
            { id := (m.walls (sec.firstwall + i)).portal, x0 := x0, x1 := x1 })
      else Except.ok s1

/-- The loop `for (usize i = 0; i < sector->nwalls; i++)`, `k` iterations
left, loop index `i`. -/
def wall_loop (m : SectorMap) (view : Int → Nat → Option WallView) (entry : queue_entry)
    (sec : sector) : Nat → Nat → RenderState → Except String RenderState
  | 0, _, s => Except.ok s
  | k + 1, i, s =>
    match wall_body m view entry sec i s with
    | Except.error e => Except.error e
    | Except.ok s1 => wall_loop m view entry sec k (i + 1) s1

/-- One iteration of `while (queue.n != 0)`, for a non-empty work list. -/
def render_step (m : SectorMap) (view : Int → Nat → Option WallView) (s : RenderState) :
    Except String RenderState :=
  let entry := (queue_pop s).1
  let s1 := (queue_pop s).2
  if s1.sectdraw entry.id then Except.ok s1
  else
    wall_loop m view entry (m.sectors entry.id) (m.sectors entry.id).nwalls 0
      { s1 with sectdraw := Function.update s1.sectdraw entry.id true }

/-- The loop `while (queue.n != 0)` with a bound `fuel` on the number of
iterations; `none` means the bound was reached. -/
def render_loop (m : SectorMap) (view : Int → Nat → Option WallView) :
    Nat → RenderState → Option (Except String RenderState)
  | 0, _ => none
  | fuel + 1, s =>
    if s.n = 0 then some (Except.ok s)
    else
      match render_step m view s with
      | Except.error e => some (Except.error e)
      | Except.ok s1 => render_loop m view fuel s1

/-- The state of `render` before its loop: reset occlusion arrays, cleared
`sectdraw`, and the work list `{ state.camera.sector, 0, SCREEN_WIDTH - 1 }`. -/
def render_init (fb : State) (cam_sector : Int) : RenderState :=
  { fb := reset_bounds fb
    sectdraw := fun _ => false
    arr := fun k =>
      if k = 0 then { id := cam_sector, x0 := 0, x1 := SCREEN_WIDTH - 1 }
      else { id := 0, x0 := 0, x1 := 0 }
    n := 1 }

/-- The function `render`, up to `fuel` iterations of its loop. -/
def render (m : SectorMap) (view : Int → Nat → Option WallView) (fb : State)
    (cam_sector : Int) (fuel : Nat) : Option (Except String RenderState) :=
  render_loop m view fuel (render_init fb cam_sector)

/-- The sector ids for which the wall loop is entered during the first
`fuel` iterations of the loop of `render` from state `s`, in order. -/
def drawn_order (m : SectorMap) (view : Int → Nat → Option WallView) :
    Nat → RenderState → List Int
  | 0, _ => []
  | fuel + 1, s =>
    if s.n = 0 then []
    else
      match render_step m view s with
      | Except.error _ =>
        if s.sectdraw (s.arr (s.n - 1)).id then [] else [(s.arr (s.n - 1)).id]
      | Except.ok s1 =>
        if s.sectdraw (s.arr (s.n - 1)).id then drawn_order m view fuel s1
        else (s.arr (s.n - 1)).id :: drawn_order m view fuel s1

/-- The wall of loop index `i` passes every culling test of the wall body:
the tests on coordinates and angles, and the two tests against the window
of the entry. -/
def passes_culling (view : Int → Nat → Option WallView) (entry : queue_entry)
    (sec : sector) (i : Nat) : Prop :=
  ∃ v, view entry.id (sec.firstwall + i) = some v ∧ ¬ v.tx0 > entry.x1 ∧ ¬ v.tx1 < entry.x0

/-- The pending entries of a work list with array `arr` and count `n`, the
entry popped next first. -/
def stack (arr : Nat → queue_entry) : Nat → List queue_entry
  | 0 => []
  | n + 1 => arr n :: stack arr n

/-- The pending entries of the work list of `render`, the entry popped next
first. -/
def pending (s : RenderState) : List queue_entry := stack s.arr s.n

/-- The state after `k` iterations of `while (queue.n != 0)` that all found
the work list non-empty and ran without abort; `none` if one of them did
not. -/
def render_iter (m : SectorMap) (view : Int → Nat → Option WallView) :
    Nat → RenderState → Option RenderState
  | 0, s => some s
  | k + 1, s =>
    if s.n = 0 then none
    else
      match render_step m view s with
      | Except.error _ => none
      | Except.ok s1 => render_iter m view k s1

/-- The entries popped by the first `fuel` iterations of the loop of
`render` from state `s`, in the order they are popped. -/
def popped_order (m : SectorMap) (view : Int → Nat → Option WallView) :
    Nat → RenderState → List queue_entry
  | 0, _ => []
  | fuel + 1, s =>
    if s.n = 0 then []
    else
      match render_step m view s with
      | Except.error _ => [(queue_pop s).1]
      | Except.ok s1 => (queue_pop s).1 :: popped_order m view fuel s1

/-- The entry that the body of the wall loop hands to the push, for the wall
of loop index `i`: none when the wall is culled or solid. -/
def wall_push (m : SectorMap) (view : Int → Nat → Option WallView) (entry : queue_entry)
    (sec : sector) (i : Nat) : Option queue_entry :=
  match view entry.id (sec.firstwall + i) with
  | none => none
  | some v =>
    if v.tx0 > entry.x1 then none
    else if v.tx1 < entry.x0 then none
    else if (m.walls (sec.firstwall + i)).portal ≠ 0 then
      some { id := (m.walls (sec.firstwall + i)).portal
             x0 := clamp v.tx0 entry.x0 entry.x1
             x1 := clamp v.tx1 entry.x0 entry.x1 }
    else none

/-- The entries handed to the push by `k` iterations of the wall loop from
loop index `i`, in the order of the walls. -/
def wall_pushes (m : SectorMap) (view : Int → Nat → Option WallView) (entry : queue_entry)
    (sec : sector) : Nat → Nat → List queue_entry
  | 0, _ => []
  | k + 1, i => (wall_push m view entry sec i).toList ++ wall_pushes m view entry sec k (i + 1)

/-- In the iteration of the loop of `render` that starts in state `s`, the
popped sector is not yet drawn, and after `j` of its walls ran without abort
the wall of loop index `j` is a portal that passes every culling test while
the work list holds `QUEUE_MAX` entries. -/
def full_at_push (m : SectorMap) (view : Int → Nat → Option WallView) (s : RenderState) : Prop :=
  s.sectdraw (s.arr (s.n - 1)).id = false ∧
  ∃ j sj, j < (m.sectors (s.arr (s.n - 1)).id).nwalls ∧
    wall_loop m view (s.arr (s.n - 1)) (m.sectors (s.arr (s.n - 1)).id) j 0
      { s with
        sectdraw := Function.update s.sectdraw (s.arr (s.n - 1)).id true
        n := s.n - 1 } = Except.ok sj ∧
    passes_culling view (s.arr (s.n - 1)) (m.sectors (s.arr (s.n - 1)).id) j ∧
    (m.walls ((m.sectors (s.arr (s.n - 1)).id).firstwall + j)).portal ≠ 0 ∧
    sj.n = QUEUE_MAX

/-- A sector with 65 portal walls, unit segments of the line `y = 10`, all
leading to sector 2. -/
def many_portals : SectorMap :=
  { sectors := fun id =>
      if id = 1 then { id := 1, firstwall := 0, nwalls := 65, zfloor := 0, zceil := 4 }
      else zero_sector
    walls := fun k => { a := ⟨k, 10⟩, b := ⟨k + 1, 10⟩, portal := 2 } }

/-- A view in which the wall of index `k` covers the five columns from
`5 * k` to `5 * k + 4`. -/
def fan_view : Int → Nat → Option WallView :=
  fun _ k => some (const_view (5 * k) (5 * k + 4) 0 0 0 0 0)

/-! ## Quantities named by the statements about `intersect_segs` and `point_side` -/

/-- The determinant `d` computed by `intersect_segs`. -/
def seg_d (a0 a1 b0 b1 : v2) : ℚ :=
  ((a0.x - a1.x) * (b0.y - b1.y)) - ((a0.y - a1.y) * (b0.x - b1.x))

/-- The parameter `t` computed by `intersect_segs`. -/
def seg_t (a0 a1 b0 b1 : v2) : ℚ :=
  (((a0.x - b0.x) * (b0.y - b1.y)) - ((a0.y - b0.y) * (b0.x - b1.x))) / seg_d a0 a1 b0 b1

/-- The parameter `u` computed by `intersect_segs`. -/
def seg_u (a0 a1 b0 b1 : v2) : ℚ :=
  (((a0.x - b0.x) * (a0.y - a1.y)) - ((a0.y - b0.y) * (a0.x - a1.x))) / seg_d a0 a1 b0 b1

/-- The cross product `u x w` of two plane vectors. -/
def cross (u w : v2) : ℚ := u.x * w.y - u.y * w.x

/-- The difference `p - q` of two points. -/
def v2_sub (p q : v2) : v2 := { x := p.x - q.x, y := p.y - q.y }

/-- The point `p` is on the line through `a` and `b`. -/
def on_line (p a b : v2) : Prop :=
  ∃ t : ℚ, p.x = a.x + t * (b.x - a.x) ∧ p.y = a.y + t * (b.y - a.y)

/-- The point `p` lies strictly to the left of the directed line `a -> b`:
`(b - a) x (p - a) > 0`. -/
def strictly_left (p a b : v2) : Prop := cross (v2_sub b a) (v2_sub p a) > 0

/-- The point `p` lies strictly to the right of the directed line `a -> b`:
`(b - a) x (p - a) < 0`. -/
def strictly_right (p a b : v2) : Prop := cross (v2_sub b a) (v2_sub p a) < 0

/-- The square `[0,4]x[0,4]` as sector 1 with walls running
counter-clockwise, and the same square as sector 2 with walls running
clockwise. -/
def squares : SectorMap :=
  { sectors := fun id =>
      if id = 1 then { id := 1, firstwall := 0, nwalls := 4, zfloor := 0, zceil := 4 }
      else if id = 2 then { id := 2, firstwall := 4, nwalls := 4, zfloor := 0, zceil := 4 }
      else zero_sector
    walls := fun k =>
      [ ({ a := ⟨0, 0⟩, b := ⟨4, 0⟩, portal := 0 } : wall),
        { a := ⟨4, 0⟩, b := ⟨4, 4⟩, portal := 0 },
        { a := ⟨4, 4⟩, b := ⟨0, 4⟩, portal := 0 },
        { a := ⟨0, 4⟩, b := ⟨0, 0⟩, portal := 0 },
        { a := ⟨0, 0⟩, b := ⟨0, 4⟩, portal := 0 },
        { a := ⟨0, 4⟩, b := ⟨4, 4⟩, portal := 0 },
        { a := ⟨4, 4⟩, b := ⟨4, 0⟩, portal := 0 },
        { a := ⟨4, 0⟩, b := ⟨0, 0⟩, portal := 0 } ].getD k zero_wall }

/-- The centre of the square `[0,4]x[0,4]`. -/
def centre : v2 := { x := 2, y := 2 }

/-- The points used to evaluate `point_side`. -/
def origin : v2 := { x := 0, y := 0 }

def unit_x : v2 := { x := 1, y := 0 }

def unit_y : v2 := { x := 0, y := 1 }

/-! ## Angles and the screen mapper

The functions of this section use `tan` and `floor` of the C library; they
are idealised to real arithmetic, the constant `PI` being the number pi. -/

noncomputable def PI : ℝ := Real.pi

noncomputable def TAU : ℝ := 2 * PI

noncomputable def PI_2 : ℝ := PI / 2

noncomputable def PI_4 : ℝ := PI / 4

/-- The macro `DEG2RAD(_d)`. -/
noncomputable def DEG2RAD (d : ℝ) : ℝ := d * (PI / 180)

noncomputable def HFOV : ℝ := DEG2RAD 90

/-- Conversion of a floating point value to `int`: truncation toward zero. -/
noncomputable def to_int (x : ℝ) : Int := if 0 ≤ x then Int.floor x else Int.ceil x

/-- The function `screen_angle_to_x`. -/
noncomputable def screen_angle_to_x (angle : ℝ) : Int :=
  to_int (((SCREEN_WIDTH / 2 : Int) : ℝ)
    * (1 - Real.tan (((angle + (HFOV / 2)) / HFOV) * PI_2 - PI_4)))

/-- The function `normalize_angle`. -/
noncomputable def normalize_angle (a : ℝ) : ℝ :=
  a - (TAU * ((Int.floor ((a + PI) / TAU) : Int) : ℝ))

/-! ## Camera -/

/-- The struct `state.camera`. -/
structure camera where
  pos : v2
  angle : ℚ
  anglecos : ℚ
  anglesin : ℚ
  sector : Int

/-- The function `world_pos_to_camera`. -/
def world_pos_to_camera (cam : camera) (p : v2) : v2 :=
  let u : v2 := { x := p.x - cam.pos.x, y := p.y - cam.pos.y }
  { x := u.x * cam.anglesin - u.y * cam.anglecos
    y := u.x * cam.anglecos + u.y * cam.anglesin }

/-- The constant `move_speed` of `main`: `3.0f * 0.016f`. -/
def move_speed : ℚ := 3 * (16 / 1000)

/-- The update of `state.camera.pos` in `main` when the key UP is down. -/
def move_forward (cam : camera) : camera :=
  { cam with
    pos := { x := cam.pos.x + (move_speed * cam.anglecos)
             y := cam.pos.y + (move_speed * cam.anglesin) } }

/-- A camera at the start position facing the direction `(3/5, 4/5)`. -/
def tilted_camera : camera :=
  { pos := { x := 3, y := 3 }, angle := 0, anglecos := 3 / 5, anglesin := 4 / 5, sector := 1 }

/-- A view that gives every wall the true columns `tx0 = 300`, `tx1 = 100`. -/
def crossed_view : Int → Nat → Option WallView :=
  fun _ _ => some (const_view 300 100 0 0 0 0 0)

/-- A view that gives every wall the true columns `tx0 = 100`, `tx1 = 300`. -/
def plain_view : Int → Nat → Option WallView :=
  fun _ _ => some (const_view 100 300 0 0 0 0 0)

/-- The first work-list entry of `render` for a camera in sector 1. -/
def first_entry : queue_entry := { id := 1, x0 := 0, x1 := SCREEN_WIDTH - 1 }

/-- The state of `render` after the first pop, for a camera in sector 1. -/
def first_popped : RenderState := (queue_pop (render_init blank 1)).2

/-- The colours of the floor span, of the ceiling span, and of a solid wall
drawn with shade `shade`. -/
def floor_colour : Nat := 0xFFFF0000

def ceiling_colour : Nat := 0xFF00FFFF

def wall_colour (shade : Int) : Nat := abgr_mul 0xFFD0D0D0 (u32 shade)

/-- The value of the variable `shade` of the column loop. -/
def shade (x x0 x1 wallshade : Int) : Int :=
  if x = x0 ∨ x = x1 then 192 else 255 - wallshade

/-! ## Wall shade -/

/-- The C library function `atan2(y, x)` in real arithmetic. -/
noncomputable def atan2 (y x : ℝ) : ℝ :=
  if 0 < x then Real.arctan (y / x)
  else if x < 0 then
    if 0 ≤ y then Real.arctan (y / x) + Real.pi else Real.arctan (y / x) - Real.pi
  else if 0 < y then Real.pi / 2
  else if y < 0 then -(Real.pi / 2)
  else 0

/-- The variable `wallshade` of `render`:
`16 * (sin(atan2f(wall->b.x - wall->a.x, wall->b.y - wall->b.y)) + 1.0f)`
converted to `int`. -/
noncomputable def wallshade (w : wall) : Int :=
  to_int (16 * (Real.sin (atan2 ((w.b.x - w.a.x : Int) : ℝ) ((w.b.y - w.b.y : Int) : ℝ)) + 1))

/-- The shade value of the specification, computed from the full direction
vector `b - a`: `trunc(16 * (sin(atan2(b.x - a.x, b.y - a.y)) + 1))`. -/
noncomputable def orientation_shade (w : wall) : Int :=
  to_int (16 * (Real.sin (atan2 ((w.b.x - w.a.x : Int) : ℝ) ((w.b.y - w.a.y : Int) : ℝ)) + 1))

/-- Two walls with the same `b.x - a.x = 4`: one along the x axis, one
diagonal. -/
def flat_wall : wall := { a := { x := 0, y := 0 }, b := { x := 4, y := 0 }, portal := 0 }

def diag_wall : wall := { a := { x := 0, y := 0 }, b := { x := 4, y := 4 }, portal := 0 }

/-- The diagonals of the square of side `1/2000`. -/
def short_a0 : v2 := { x := 0, y := 0 }

def short_a1 : v2 := { x := 1 / 2000, y := 1 / 2000 }

def short_b0 : v2 := { x := 0, y := 1 / 2000 }

def short_b1 : v2 := { x := 1 / 2000, y := 0 }

/-! ## Theorems -/

theorem cmin_eq_min (a b : Int) : cmin a b = min a b := by
  unfold cmin; split_ifs <;> omega

theorem cmax_eq_max (a b : Int) : cmax a b = max a b := by
  unfold cmax; split_ifs <;> omega

theorem u16_of_range (v : Int) (h0 : 0 ≤ v) (h1 : v < 65536) : ((u16 v : Nat) : Int) = v := by
  unfold u16; omega

theorem verline_y_lo (s : State) (x y0 y1 : Int) (c : Nat) : (verline s x y0 y1 c).y_lo = s.y_lo := rfl

theorem verline_y_hi (s : State) (x y0 y1 : Int) (c : Nat) : (verline s x y0 y1 c).y_hi = s.y_hi := rfl

/-- The new `y_hi` array after one column draw. -/
theorem draw_column_y_hi (s : State) (portal x0 x1 : Int) (v : WallView) (x : Int) :
    (draw_column s portal x0 x1 v x).y_hi =
      if portal ≠ 0 then
        Function.update s.y_hi x
          (u16 (clamp (cmin (cmin (clamp (v.tyc x) (s.y_lo x) (s.y_hi x))
            (clamp (v.tnyc x) (s.y_lo x) (s.y_hi x))) (s.y_hi x)) 0 (SCREEN_HEIGHT - 1)))
      else s.y_hi := by
  unfold draw_column
  by_cases hp : portal ≠ 0
  · simp only [hp, if_true]
    split_ifs <;> simp [verline]
  · simp only [hp, if_false]
    split_ifs <;> simp [verline]

/-- The new `y_lo` array after one column draw. -/
theorem draw_column_y_lo (s : State) (portal x0 x1 : Int) (v : WallView) (x : Int) :
    (draw_column s portal x0 x1 v x).y_lo =
      if portal ≠ 0 then
        Function.update s.y_lo x
          (u16 (clamp (cmax (cmax (clamp (v.tyf x) (s.y_lo x) (s.y_hi x))
            (clamp (v.tnyf x) (s.y_lo x) (s.y_hi x))) (s.y_lo x)) 0 (SCREEN_HEIGHT - 1)))
      else s.y_lo := by
  unfold draw_column
  by_cases hp : portal ≠ 0
  · simp only [hp, if_true]
    split_ifs <;> simp [verline]
  · simp only [hp, if_false]
    split_ifs <;> simp [verline]

theorem clamp_eq (x mi ma : Int) : clamp x mi ma = min (max x mi) ma := by
  unfold clamp; rw [cmin_eq_min, cmax_eq_max]

theorem clamp_between (x mi ma : Int) : min mi ma ≤ clamp x mi ma ∧ clamp x mi ma ≤ max mi ma := by
  rw [clamp_eq]; constructor <;> omega

theorem clamp_mem (x mi ma : Int) (h : mi ≤ ma) : mi ≤ clamp x mi ma ∧ clamp x mi ma ≤ ma := by
  rw [clamp_eq]; constructor <;> omega

theorem clamp_mono (x y mi ma : Int) (h : x ≤ y) : clamp x mi ma ≤ clamp y mi ma := by
  rw [clamp_eq, clamp_eq]; omega

theorem clamp_le_hi (x mi ma : Int) : clamp x mi ma ≤ ma := by
  rw [clamp_eq]; omega

theorem clamp_screen (x : Int) :
    0 ≤ clamp x 0 (SCREEN_HEIGHT - 1) ∧ clamp x 0 (SCREEN_HEIGHT - 1) ≤ 215 := by
  rw [clamp_eq]; unfold SCREEN_HEIGHT; constructor <;> omega

theorem u16_clamp_screen (x : Int) :
    ((u16 (clamp x 0 (SCREEN_HEIGHT - 1)) : Nat) : Int) = min (max x 0) 215 := by
  have h := clamp_screen x
  rw [u16_of_range _ h.1 (by omega), clamp_eq]; unfold SCREEN_HEIGHT; rfl

/-- Effect of one column draw on the occlusion range of an arbitrary column
`c`: both bounds stay at most 215; when `y_lo[c] <= 215` beforehand the
range does not widen; and `y_lo[c] <= y_hi[c]` is kept whenever the rows of
a portal draw at `c` are ordered. -/
theorem draw_column_range (s : State) (portal x0 x1 : Int) (v : WallView) (x c : Int)
    (hlo : (s.y_lo c : Int) ≤ 215) (hhi : (s.y_hi c : Int) ≤ 215) :
    ((draw_column s portal x0 x1 v x).y_lo c : Int) ≤ 215 ∧
    ((draw_column s portal x0 x1 v x).y_hi c : Int) ≤ 215 ∧
    (s.y_lo c : Int) ≤ (draw_column s portal x0 x1 v x).y_lo c ∧
    ((draw_column s portal x0 x1 v x).y_hi c : Int) ≤ s.y_hi c ∧
    ((s.y_lo c : Int) ≤ s.y_hi c →
      (c = x → portal ≠ 0 → max (v.tyf x) (v.tnyf x) ≤ min (v.tyc x) (v.tnyc x)) →
      ((draw_column s portal x0 x1 v x).y_lo c : Int) ≤ (draw_column s portal x0 x1 v x).y_hi c) := by
  rw [draw_column_y_hi, draw_column_y_lo]
  by_cases hp : portal ≠ 0
  · rw [if_pos hp, if_pos hp]
    by_cases hc : c = x
    · subst hc
      simp only [Function.update_same, u16_clamp_screen, cmin_eq_min, cmax_eq_max]
      have h0l : (0 : Int) ≤ s.y_lo c := Int.ofNat_nonneg _
      have h0h : (0 : Int) ≤ s.y_hi c := Int.ofNat_nonneg _
      have bf := clamp_between (v.tyf c) (s.y_lo c) (s.y_hi c)
      have bc := clamp_between (v.tyc c) (s.y_lo c) (s.y_hi c)
      have bnf := clamp_between (v.tnyf c) (s.y_lo c) (s.y_hi c)
      have bnc := clamp_between (v.tnyc c) (s.y_lo c) (s.y_hi c)
      refine ⟨by omega, by omega, by omega, by omega, ?_⟩
      intro hle hord
      have ho := hord trivial hp
      have mf := clamp_mem (v.tyf c) (s.y_lo c) (s.y_hi c) hle
      have mc := clamp_mem (v.tyc c) (s.y_lo c) (s.y_hi c) hle
      have mnf := clamp_mem (v.tnyf c) (s.y_lo c) (s.y_hi c) hle
      have mnc := clamp_mem (v.tnyc c) (s.y_lo c) (s.y_hi c) hle
      have o1 := clamp_mono (v.tyf c) (v.tyc c) (s.y_lo c) (s.y_hi c) (by omega)
      have o2 := clamp_mono (v.tyf c) (v.tnyc c) (s.y_lo c) (s.y_hi c) (by omega)
      have o3 := clamp_mono (v.tnyf c) (v.tyc c) (s.y_lo c) (s.y_hi c) (by omega)
      have o4 := clamp_mono (v.tnyf c) (v.tnyc c) (s.y_lo c) (s.y_hi c) (by omega)
      generalize clamp (v.tyf c) (s.y_lo c) (s.y_hi c) = yf at *
      generalize clamp (v.tyc c) (s.y_lo c) (s.y_hi c) = yc at *
      generalize clamp (v.tnyf c) (s.y_lo c) (s.y_hi c) = nyf at *
      generalize clamp (v.tnyc c) (s.y_lo c) (s.y_hi c) = nyc at *
      omega
    · simp only [Function.update_noteq hc]
      exact ⟨hlo, hhi, le_refl _, le_refl _, fun h _ => h⟩
  · rw [if_neg hp, if_neg hp]
    exact ⟨hlo, hhi, le_refl _, le_refl _, fun h _ => h⟩

/-- Effect of a sequence of column draws on the occlusion range of a column. -/
theorem apply_draws_range (ds : List ColumnDraw) : ∀ (s : State) (c : Int),
    (s.y_lo c : Int) ≤ 215 → (s.y_hi c : Int) ≤ 215 →
    ((apply_draws s ds).y_lo c : Int) ≤ 215 ∧
    ((apply_draws s ds).y_hi c : Int) ≤ 215 ∧
    (s.y_lo c : Int) ≤ (apply_draws s ds).y_lo c ∧
    ((apply_draws s ds).y_hi c : Int) ≤ s.y_hi c ∧
    ((s.y_lo c : Int) ≤ s.y_hi c → (∀ d ∈ ds, d.x = c → rows_ordered d) →
      ((apply_draws s ds).y_lo c : Int) ≤ (apply_draws s ds).y_hi c) := by
  induction ds with
  | nil => intro s c hlo hhi; exact ⟨hlo, hhi, le_refl _, le_refl _, fun h _ => h⟩
  | cons d ds ih =>
    intro s c hlo hhi
    have h1 := draw_column_range s d.portal d.x0 d.x1 d.view d.x c hlo hhi
    have h2 := ih (apply_draw s d) c h1.1 h1.2.1
    have e : apply_draws s (d :: ds) = apply_draws (apply_draw s d) ds := rfl
    rw [e]
    unfold apply_draw at h2 ⊢
    refine ⟨h2.1, h2.2.1, le_trans h1.2.2.1 h2.2.2.1, le_trans h2.2.2.2.1 h1.2.2.2.1, ?_⟩
    intro hle hord
    apply h2.2.2.2.2
    · apply h1.2.2.2.2 hle
      intro hc hp
      exact hord d (List.mem_cons_self _ _) hc.symm hp
    · intro d1 hd1 hx
      exact hord d1 (List.mem_cons_of_mem _ hd1) hx

/-- C1, as stated, fails: from the frame reset, one portal draw whose
neighbour floor row (150) is above the ceiling row (100) leaves column 0
with `y_lo = 150 > y_hi = 100`. -/
theorem occlusion_order_broken :
    (apply_draws (reset_bounds blank) [step_above_ceiling]).y_lo 0 = 150 ∧
    (apply_draws (reset_bounds blank) [step_above_ceiling]).y_hi 0 = 100 ∧
    ¬ ((apply_draws (reset_bounds blank) [step_above_ceiling]).y_lo 0
        ≤ (apply_draws (reset_bounds blank) [step_above_ceiling]).y_hi 0) := by
  decide

/-- C1 (amended): after the frame reset and any sequence of per-column draws
with arbitrary interpolated rows, every column `x` of the screen has
`0 <= y_lo[x] <= SCREEN_HEIGHT-1` and `0 <= y_hi[x] <= SCREEN_HEIGHT-1`; and
`y_lo[x] <= y_hi[x]` holds as well when every portal draw made at `x` had
ordered rows (`max(tyf, tnyf) <= min(tyc, tnyc)`). -/
theorem occlusion_bounds_after_draws (s0 : State) (ds : List ColumnDraw) (x : Int)
    (hx0 : 0 ≤ x) (hx1 : x < SCREEN_WIDTH) :
    0 ≤ ((apply_draws (reset_bounds s0) ds).y_lo x : Int) ∧
    ((apply_draws (reset_bounds s0) ds).y_lo x : Int) ≤ SCREEN_HEIGHT - 1 ∧
    0 ≤ ((apply_draws (reset_bounds s0) ds).y_hi x : Int) ∧
    ((apply_draws (reset_bounds s0) ds).y_hi x : Int) ≤ SCREEN_HEIGHT - 1 ∧
    ((∀ d ∈ ds, d.x = x → rows_ordered d) →
      ((apply_draws (reset_bounds s0) ds).y_lo x : Int)
        ≤ (apply_draws (reset_bounds s0) ds).y_hi x) := by
  have hl : ((reset_bounds s0).y_lo x : Int) = 0 := by
    simp [reset_bounds, hx0, hx1, u16]
  have hh : ((reset_bounds s0).y_hi x : Int) = 215 := by
    simp [reset_bounds, hx0, hx1, u16, SCREEN_HEIGHT]
  have h := apply_draws_range ds (reset_bounds s0) x (by omega) (by omega)
  refine ⟨Int.ofNat_nonneg _, ?_, Int.ofNat_nonneg _, ?_, ?_⟩
  · unfold SCREEN_HEIGHT; exact h.1
  · unfold SCREEN_HEIGHT; exact h.2.1
  · intro hord
    exact h.2.2.2.2 (by omega) hord

/-- Instance of `occlusion_bounds_after_draws`: column 3 after a solid and a
portal draw with ordered rows. -/
theorem occlusion_bounds_after_draws_witness :
    (0 : Int) ≤ 3 ∧ (3 : Int) < SCREEN_WIDTH ∧
    (0 ≤ ((apply_draws (reset_bounds blank) ordered_draws).y_lo 3 : Int) ∧
    ((apply_draws (reset_bounds blank) ordered_draws).y_lo 3 : Int) ≤ SCREEN_HEIGHT - 1 ∧
    0 ≤ ((apply_draws (reset_bounds blank) ordered_draws).y_hi 3 : Int) ∧
    ((apply_draws (reset_bounds blank) ordered_draws).y_hi 3 : Int) ≤ SCREEN_HEIGHT - 1 ∧
    ((∀ d ∈ ordered_draws, d.x = 3 → rows_ordered d) →
      ((apply_draws (reset_bounds blank) ordered_draws).y_lo 3 : Int)
        ≤ (apply_draws (reset_bounds blank) ordered_draws).y_hi 3)) :=
  ⟨by decide, by decide,
    occlusion_bounds_after_draws blank ordered_draws 3 (by decide) (by decide)⟩

/-- One column draw does not widen the range of its column when both bounds
are at most `SCREEN_HEIGHT-1` beforehand. -/
theorem draw_column_narrows (s : State) (portal x0 x1 : Int) (v : WallView) (x : Int)
    (hlo : (s.y_lo x : Int) ≤ SCREEN_HEIGHT - 1) (hhi : (s.y_hi x : Int) ≤ SCREEN_HEIGHT - 1) :
    s.y_lo x ≤ (draw_column s portal x0 x1 v x).y_lo x ∧
    (draw_column s portal x0 x1 v x).y_hi x ≤ s.y_hi x := by
  unfold SCREEN_HEIGHT at hlo hhi
  have h := draw_column_range s portal x0 x1 v x x (by omega) (by omega)
  exact ⟨by exact_mod_cast h.2.2.1, by exact_mod_cast h.2.2.2.1⟩

/-- C2: in every state that `render` reaches, that is after the frame reset
and any sequence of per-column draws, every column `x` of the screen has
`0 <= y_lo[x]` and `y_hi[x] <= SCREEN_HEIGHT-1`, and every further
per-column draw (solid or portal wall, arbitrary interpolated rows) leaves a
new `y_lo[x]` at least the old one and a new `y_hi[x]` at most the old one:
the range never widens. -/
theorem range_never_widens (s0 : State) (ds : List ColumnDraw) (d : ColumnDraw) (x : Int)
    (hx0 : 0 ≤ x) (hx1 : x < SCREEN_WIDTH) :
    (0 : Int) ≤ (apply_draws (reset_bounds s0) ds).y_lo x ∧
    ((apply_draws (reset_bounds s0) ds).y_hi x : Int) ≤ SCREEN_HEIGHT - 1 ∧
    (apply_draws (reset_bounds s0) ds).y_lo x
      ≤ (apply_draw (apply_draws (reset_bounds s0) ds) d).y_lo x ∧
    (apply_draw (apply_draws (reset_bounds s0) ds) d).y_hi x
      ≤ (apply_draws (reset_bounds s0) ds).y_hi x := by
  have hl : ((reset_bounds s0).y_lo x : Int) = 0 := by
    simp [reset_bounds, hx0, hx1, u16]
  have hh : ((reset_bounds s0).y_hi x : Int) = 215 := by
    simp [reset_bounds, hx0, hx1, u16, SCREEN_HEIGHT]
  have h := apply_draws_range ds (reset_bounds s0) x (by omega) (by omega)
  have h2 := draw_column_range (apply_draws (reset_bounds s0) ds) d.portal d.x0 d.x1 d.view d.x x
    h.1 h.2.1
  refine ⟨Int.ofNat_nonneg _, ?_, ?_, ?_⟩
  · unfold SCREEN_HEIGHT; exact h.2.1
  · unfold apply_draw; exact_mod_cast h2.2.2.1
  · unfold apply_draw; exact_mod_cast h2.2.2.2.1

/-- Instance of `range_never_widens`: column 0 after the portal draw
`step_above_ceiling`, and the same draw made once more. -/
theorem range_never_widens_witness :
    (0 : Int) ≤ 0 ∧ (0 : Int) < SCREEN_WIDTH ∧
    ((0 : Int) ≤ (apply_draws (reset_bounds blank) [step_above_ceiling]).y_lo 0 ∧
    ((apply_draws (reset_bounds blank) [step_above_ceiling]).y_hi 0 : Int) ≤ SCREEN_HEIGHT - 1 ∧
    (apply_draws (reset_bounds blank) [step_above_ceiling]).y_lo 0
      ≤ (apply_draw (apply_draws (reset_bounds blank) [step_above_ceiling])
          step_above_ceiling).y_lo 0 ∧
    (apply_draw (apply_draws (reset_bounds blank) [step_above_ceiling])
        step_above_ceiling).y_hi 0
      ≤ (apply_draws (reset_bounds blank) [step_above_ceiling]).y_hi 0) :=
  ⟨by decide, by decide,
    range_never_widens blank [step_above_ceiling] step_above_ceiling 0 (by decide) (by decide)⟩

theorem point_in_sector_loop_iff (m : SectorMap) (s : sector) (p : v2) :
    ∀ (k i : Nat), point_in_sector_loop m s p k i = true ↔
      ∀ j, i ≤ j → j < i + k →
        point_side p (v2i_to_v2 (m.walls (s.firstwall + j)).a)
          (v2i_to_v2 (m.walls (s.firstwall + j)).b) ≤ 0 := by
  intro k
  induction k with
  | zero =>
    intro i
    simp only [point_in_sector_loop, true_iff]
    intro j h1 h2
    omega
  | succ k ih =>
    intro i
    unfold point_in_sector_loop
    split_ifs with h
    · constructor
      · intro hf; exact absurd hf (by simp)
      · intro hall
        have := hall i (le_refl _) (by omega)
        exact absurd h (not_lt.mpr this)
    · rw [ih (i + 1)]
      constructor
      · intro hall j h1 h2
        rcases Nat.eq_or_lt_of_le h1 with he | hl
        · subst he; exact not_lt.mp h
        · exact hall j hl (by omega)
      · intro hall j h1 h2
        exact hall j (by omega) (by omega)

/-- C4: `point_in_sector(s, p)` returns true if and only if
`point_side(p, w.a, w.b) <= 0` for every wall `w` of the sector's range
`[firstwall, firstwall + nwalls)`; in particular it is true for a sector
with no walls. -/
theorem point_in_sector_iff (m : SectorMap) (s : sector) (p : v2) :
    (point_in_sector m s p = true ↔
      ∀ i, i < s.nwalls →
        point_side p (v2i_to_v2 (m.walls (s.firstwall + i)).a)
          (v2i_to_v2 (m.walls (s.firstwall + i)).b) ≤ 0) ∧
    (s.nwalls = 0 → point_in_sector m s p = true) := by
  have key : point_in_sector m s p = true ↔
      ∀ i, i < s.nwalls →
        point_side p (v2i_to_v2 (m.walls (s.firstwall + i)).a)
          (v2i_to_v2 (m.walls (s.firstwall + i)).b) ≤ 0 := by
    unfold point_in_sector
    rw [point_in_sector_loop_iff]
    constructor
    · intro h i hi; exact h i (Nat.zero_le _) (by omega)
    · intro h j _ hj; exact h j (by omega)
  refine ⟨key, ?_⟩
  intro h0
  rw [key]
  intro i hi
  omega

theorem two_rooms_outside (id : Int) (h : id = 1 ∨ id = 2) :
    point_in_sector two_rooms (two_rooms.sectors id) outside_point = false := by
  rcases h with h | h <;> subst h <;>
    norm_num [point_in_sector, point_in_sector_loop, point_side, two_rooms, outside_point,
      v2i_to_v2]

theorem two_rooms_enqueue (id : Int) (h : id = 1 ∨ id = 2) (st : LocState) (hn : st.n = 0) :
    enqueue_neighbors two_rooms (two_rooms.sectors id) (two_rooms.sectors id).nwalls 0 st =
      some { st with
        queue := Function.update st.queue (st.i % QUEUE_MAX) (3 - id)
        n := 1 } := by
  rcases h with h | h <;> subst h <;>
    simp [enqueue_neighbors, two_rooms, hn, QUEUE_MAX]

theorem two_rooms_cycle : ∀ (fuel : Nat) (st : LocState),
    st.n = 1 → (st.queue st.i = 1 ∨ st.queue st.i = 2) →
    locate_loop two_rooms outside_point fuel st = none := by
  intro fuel
  induction fuel with
  | zero => intro st _ _; rfl
  | succ fuel ih =>
    intro st hn hq
    unfold locate_loop
    rw [if_neg (by omega)]
    simp only [two_rooms_outside _ hq]
    rw [two_rooms_enqueue _ hq _ (by simp [hn])]
    simp only [Bool.false_eq_true, if_false]
    apply ih
    · rfl
    · have e : (st.i + 1) % 64 % 64 = (st.i + 1) % 64 := Nat.mod_mod _ _
      simp only [QUEUE_MAX]
      rw [e, Function.update_same]
      omega

/-- C5 fails on the code: on the map `two_rooms` (two rooms joined by one
portal, all portal ids valid) with the camera at `outside_point`, in no
sector, the search started from sector 1 never reaches label `done`: it
pops 1, pushes 2, pops 2, pushes 1, and so on, and no iteration bound is
enough. -/
theorem locator_never_terminates :
    ∀ fuel : Nat, locate two_rooms outside_point 1 fuel = none := by
  intro fuel
  unfold locate
  apply two_rooms_cycle
  · rfl
  · left; rfl

/-- What the loop "check neighbors" does to the queue when it does not
overflow: the front index and the old entries stay, every new entry is a
non-zero id, and every portal of the walls `j .. j+k-1` is among the new
entries. -/
theorem enqueue_neighbors_spec (m : SectorMap) (sec : sector) :
    ∀ (k j : Nat) (st st2 : LocState), st.i < QUEUE_MAX → st.n ≤ QUEUE_MAX →
    enqueue_neighbors m sec k j st = some st2 →
    st2.i = st.i ∧ st.n ≤ st2.n ∧ st2.n ≤ QUEUE_MAX ∧
    (∀ t, t < st.n → queue_at st2 t = queue_at st t) ∧
    (∀ t, st.n ≤ t → t < st2.n → queue_at st2 t ≠ 0) ∧
    (∀ jw, j ≤ jw → jw < j + k → (m.walls (sec.firstwall + jw)).portal ≠ 0 →
      ∃ t, t < st2.n ∧ queue_at st2 t = (m.walls (sec.firstwall + jw)).portal) := by
  intro k
  induction k with
  | zero =>
    intro j st st2 _ hn h
    simp only [enqueue_neighbors, Option.some.injEq] at h
    subst h
    refine ⟨rfl, le_refl _, hn, fun _ _ => rfl, ?_, ?_⟩
    · intro t h1 h2; omega
    · intro jw h1 h2; omega
  | succ k ih =>
    intro j st st2 hi hn h
    unfold enqueue_neighbors at h
    by_cases hp : (m.walls (sec.firstwall + j)).portal ≠ 0
    · rw [if_pos hp] at h
      by_cases hfull : st.n = QUEUE_MAX
      · rw [if_pos hfull] at h; exact absurd h (by simp)
      · rw [if_neg hfull] at h
        have hlt : st.n < QUEUE_MAX := lt_of_le_of_ne hn hfull
        obtain ⟨e1, e2, e3, e4, e5, e6⟩ := ih (j + 1)
          { st with
            queue := Function.update st.queue ((st.i + st.n) % QUEUE_MAX)
              (m.walls (sec.firstwall + j)).portal
            n := st.n + 1 } st2 hi (by show st.n + 1 ≤ QUEUE_MAX; omega) h
        simp only at e1 e2 e4 e5 e6
        have hnew : queue_at st2 st.n = (m.walls (sec.firstwall + j)).portal := by
          rw [e4 st.n (by omega)]
          unfold queue_at
          simp only [Function.update_same]
        refine ⟨e1, by omega, e3, ?_, ?_, ?_⟩
        · intro t ht
          rw [e4 t (by omega)]
          unfold queue_at
          simp only
          apply Function.update_noteq
          unfold QUEUE_MAX at *
          omega
        · intro t h1 h2
          rcases Nat.eq_or_lt_of_le h1 with he | hl
          · rw [← he, hnew]; exact hp
          · exact e5 t (by omega) h2
        · intro jw h1 h2 hpw
          rcases Nat.eq_or_lt_of_le h1 with he | hl
          · subst he
            exact ⟨st.n, by omega, hnew⟩
          · exact e6 jw (by omega) (by omega) hpw
    · rw [if_neg hp] at h
      obtain ⟨e1, e2, e3, e4, e5, e6⟩ := ih (j + 1) st st2 hi hn h
      refine ⟨e1, e2, e3, e4, e5, ?_⟩
      intro jw h1 h2 hpw
      rcases Nat.eq_or_lt_of_le h1 with he | hl
      · subst he; exact absurd hpw hp
      · exact e6 jw (by omega) (by omega) hpw

/-- The loop "check neighbors" takes the full-queue `goto` exactly when the
pending entries and the portals still to enqueue exceed `QUEUE_MAX`;
otherwise it adds one entry per portal wall. -/
theorem enqueue_neighbors_count (m : SectorMap) (sec : sector) :
    ∀ (k j : Nat) (st : LocState), st.n ≤ QUEUE_MAX →
    (enqueue_neighbors m sec k j st = none ↔ QUEUE_MAX < st.n + portal_count m sec k j) ∧
    (∀ st2, enqueue_neighbors m sec k j st = some st2 →
      st2.n = st.n + portal_count m sec k j) := by
  intro k
  induction k with
  | zero =>
    intro j st hn
    constructor
    · constructor
      · intro h
        exact absurd h (by simp [enqueue_neighbors])
      · intro h
        simp only [portal_count] at h
        omega
    · intro st2 h
      simp only [enqueue_neighbors, Option.some.injEq] at h
      subst h
      simp [portal_count]
  | succ k ih =>
    intro j st hn
    unfold enqueue_neighbors portal_count
    by_cases hp : (m.walls (sec.firstwall + j)).portal ≠ 0
    · rw [if_pos hp, if_pos hp]
      by_cases hfull : st.n = QUEUE_MAX
      · rw [if_pos hfull]
        refine ⟨⟨fun _ => by omega, fun _ => rfl⟩, ?_⟩
        intro st2 h
        cases h
      · rw [if_neg hfull]
        have hlt : st.n < QUEUE_MAX := lt_of_le_of_ne hn hfull
        obtain ⟨a1, a2⟩ := ih (j + 1)
          { st with
            queue := Function.update st.queue ((st.i + st.n) % QUEUE_MAX)
              (m.walls (sec.firstwall + j)).portal
            n := st.n + 1 } (by show st.n + 1 ≤ QUEUE_MAX; omega)
        simp only at a1 a2
        refine ⟨?_, ?_⟩
        · rw [a1]
          constructor <;> intro h <;> omega
        · intro st2 h
          rw [a2 st2 h]
          omega
    · rw [if_neg hp, if_neg hp]
      obtain ⟨a1, a2⟩ := ih (j + 1) st hn
      refine ⟨?_, ?_⟩
      · rw [a1]
        constructor <;> intro h <;> omega
      · intro st2 h
        rw [a2 st2 h]
        omega

theorem queue_at_zero (st : LocState) (hi : st.i < QUEUE_MAX) : queue_at st 0 = st.queue st.i := by
  unfold queue_at
  rw [Nat.add_zero, Nat.mod_eq_of_lt hi]

/-- One iteration of the search loop on a well-formed non-empty queue: the
front sector contains `p` and the search succeeds at once; or the queue
overflows and the search ends; or the search continues from a well-formed
queue that holds the old entries shifted by one and every portal neighbour of
the front sector. -/
theorem search_step (m : SectorMap) (p : v2) (st : LocState)
    (hg : good_queue st) (hn : st.n ≠ 0) :
    search_succeeds m p st ∨
    (point_in_sector m (m.sectors (st.queue st.i)) p = false ∧
      ∃ st2, good_queue st2 ∧
        (∀ t, t + 1 < st.n → t < st2.n ∧ queue_at st2 t = queue_at st (t + 1)) ∧
        (∀ c, portal_edge m (st.queue st.i) c → ∃ t, t < st2.n ∧ queue_at st2 t = c) ∧
        (search_succeeds m p st2 → search_succeeds m p st)) := by
  obtain ⟨hi, hle, hnz⟩ := hg
  by_cases hin : point_in_sector m (m.sectors (st.queue st.i)) p = true
  · left
    refine ⟨1, { found := st.queue st.i, overflow := false }, ?_, ?_, ?_⟩
    · simp only [locate_loop, if_neg hn, hin, if_true]
    · intro h; cases h
    · intro _
      refine ⟨?_, hin, [], ?_, ?_⟩
      · rw [← queue_at_zero st hi]; exact hnz 0 (by omega)
      · simp only [visit_order, if_neg hn, hin, if_true, List.nil_append]
      · intro id hid; simp at hid
  · have hout : point_in_sector m (m.sectors (st.queue st.i)) p = false := by
      simpa using hin
    cases henq : enqueue_neighbors m (m.sectors (st.queue st.i))
        (m.sectors (st.queue st.i)).nwalls 0
        { st with i := (st.i + 1) % QUEUE_MAX, n := st.n - 1 } with
    | none =>
      left
      refine ⟨1, { found := SECTOR_NONE, overflow := true }, ?_, ?_, ?_⟩
      · simp only [locate_loop, if_neg hn, hout, henq, Bool.false_eq_true, if_false]
      · intro _
        have hc := (enqueue_neighbors_count m (m.sectors (st.queue st.i))
          (m.sectors (st.queue st.i)).nwalls 0
          { st with i := (st.i + 1) % QUEUE_MAX, n := st.n - 1 }
          (by show st.n - 1 ≤ QUEUE_MAX; omega)).1.mp henq
        simp only at hc
        simp only [visit_order, if_neg hn, hout, henq, Bool.false_eq_true, if_false,
          List.length_singleton, List.map_cons, List.map_nil, List.sum_cons, List.sum_nil]
        unfold portals_of
        omega
      · intro h; exact absurd h (by simp)
    | some st2 =>
      right
      refine ⟨hout, st2, ?_⟩
      have hi1 : (st.i + 1) % QUEUE_MAX < QUEUE_MAX := Nat.mod_lt _ (by unfold QUEUE_MAX; omega)
      obtain ⟨e1, e2, e3, e4, e5, e6⟩ := enqueue_neighbors_spec m (m.sectors (st.queue st.i))
        (m.sectors (st.queue st.i)).nwalls 0
        { st with i := (st.i + 1) % QUEUE_MAX, n := st.n - 1 } st2 hi1
        (by show st.n - 1 ≤ QUEUE_MAX; omega) henq
      simp only at e1 e2 e4 e5 e6
      have shift : ∀ t, t + 1 < st.n → queue_at st2 t = queue_at st (t + 1) := by
        intro t ht
        rw [e4 t (by omega)]
        unfold queue_at
        simp only
        congr 1
        unfold QUEUE_MAX
        omega
      refine ⟨⟨by rw [e1]; exact hi1, e3, ?_⟩, ?_, ?_, ?_⟩
      · intro t ht
        by_cases hold : t < st.n - 1
        · rw [shift t (by omega)]
          exact hnz (t + 1) (by omega)
        · exact e5 t (by omega) ht
      · intro t ht
        exact ⟨by omega, shift t ht⟩
      · intro c hc
        obtain ⟨jw, hjw, hportal, hc0⟩ := hc
        have := e6 jw (Nat.zero_le _) (by omega) (by rw [hportal]; exact hc0)
        rw [hportal] at this
        exact this
      · intro hs
        obtain ⟨fuel, r, hr, hfull, hprop⟩ := hs
        have hcount := (enqueue_neighbors_count m (m.sectors (st.queue st.i))
          (m.sectors (st.queue st.i)).nwalls 0
          { st with i := (st.i + 1) % QUEUE_MAX, n := st.n - 1 }
          (by show st.n - 1 ≤ QUEUE_MAX; omega)).2 st2 henq
        simp only at hcount
        refine ⟨fuel + 1, r, ?_, ?_, ?_⟩
        · simp only [locate_loop, if_neg hn, hout, henq, Bool.false_eq_true, if_false]
          exact hr
        · intro hov
          have hf := hfull hov
          simp only [visit_order, if_neg hn, hout, henq, Bool.false_eq_true, if_false,
            List.length_cons, List.map_cons, List.sum_cons]
          have hpo : portals_of m (st.queue st.i)
              = portal_count m (m.sectors (st.queue st.i))
                  (m.sectors (st.queue st.i)).nwalls 0 := rfl
          rw [hpo]
          omega
        · intro hov
          obtain ⟨h1, h2, earlier, h3, h4⟩ := hprop hov
          refine ⟨h1, h2, st.queue st.i :: earlier, ?_, ?_⟩
          · simp only [visit_order, if_neg hn, hout, henq, Bool.false_eq_true, if_false, h3,
              List.cons_append]
          · intro id hid
            rcases List.mem_cons.mp hid with he | hm
            · rw [he]; exact hout
            · exact h4 id hm

/-- The search succeeds from every well-formed queue that holds, at position
`j`, a sector from which a sector containing `p` is reached by `d` portal
walls. -/
theorem search_reaches (m : SectorMap) (p : v2) (s : Int)
    (hs : point_in_sector m (m.sectors s) p = true) :
    ∀ (d j : Nat) (st : LocState), good_queue st → j < st.n →
      reach m d (queue_at st j) s → search_succeeds m p st := by
  intro d
  induction d with
  | zero =>
    intro j
    induction j with
    | zero =>
      intro st hg hj hr
      rcases search_step m p st hg (by omega) with h | ⟨hout, _⟩
      · exact h
      · rw [queue_at_zero st hg.1] at hr
        change st.queue st.i = s at hr
        rw [hr, hs] at hout
        exact absurd hout (by simp)
    | succ j ihj =>
      intro st hg hj hr
      rcases search_step m p st hg (by omega) with h | ⟨_, st2, hg2, hshift, _, hback⟩
      · exact h
      · apply hback
        have := hshift j hj
        exact ihj st2 hg2 this.1 (by rw [this.2]; exact hr)
  | succ d ihd =>
    intro j
    induction j with
    | zero =>
      intro st hg hj hr
      rcases search_step m p st hg (by omega) with h | ⟨_, st2, hg2, _, hportal, hback⟩
      · exact h
      · apply hback
        rw [queue_at_zero st hg.1] at hr
        obtain ⟨c, hc, hrc⟩ := hr
        obtain ⟨t, ht, hqt⟩ := hportal c hc
        exact ihd t st2 hg2 ht (by rw [hqt]; exact hrc)
    | succ j ihj =>
      intro st hg hj hr
      rcases search_step m p st hg (by omega) with h | ⟨_, st2, hg2, hshift, _, hback⟩
      · exact h
      · apply hback
        have := hshift j hj
        exact ihj st2 hg2 this.1 (by rw [this.2]; exact hr)

theorem locate_init_good (start : Int) (h : start ≠ 0) : good_queue (locate_init start) := by
  refine ⟨by show 0 < QUEUE_MAX; decide, by show 1 ≤ QUEUE_MAX; decide, ?_⟩
  intro t ht
  have h0 : t = 0 := by
    have : (locate_init start).n = 1 := rfl
    omega
  subst h0
  exact h

/-- C6: if a sector `s` containing the camera point is reached from the
camera's previously known sector `start` by a chain of `d` portal walls, the
search terminates. It ends through the full-queue `goto` only if the entries
put in the queue (the start sector and one per portal wall of every visited
sector) exceed the visited sectors by more than `QUEUE_MAX`. Otherwise the new
`camera.sector` is the variable `found`, a sector for which `point_in_sector`
holds, set without the warning fallback; it is the first sector, in the order
the search visits them, that contains the point, hence `s` itself when no
other visited sector contains it. If `start` itself contains the point,
`camera.sector` is unchanged. -/
theorem locator_finds_containing_sector (m : SectorMap) (p : v2) (start s : Int) (d : Nat)
    (hstart : start ≠ 0) (hreach : reach m d start s)
    (hin : point_in_sector m (m.sectors s) p = true) :
    (∃ fuel r, locate m p start fuel = some r ∧
      (r.overflow = true →
        QUEUE_MAX + (visit_order m p fuel (locate_init start)).length
          < 1 + ((visit_order m p fuel (locate_init start)).map (portals_of m)).sum) ∧
      (r.overflow = false →
        point_in_sector m (m.sectors (new_camera_sector r)) p = true ∧
        new_camera_sector r = r.found ∧ warns r = false ∧
        ((∀ id ∈ visit_order m p fuel (locate_init start),
            point_in_sector m (m.sectors id) p = true → id = s) →
          new_camera_sector r = s) ∧
        ∃ earlier, visit_order m p fuel (locate_init start) = earlier ++ [new_camera_sector r] ∧
          ∀ id ∈ earlier, point_in_sector m (m.sectors id) p = false)) ∧
    (point_in_sector m (m.sectors start) p = true →
      ∀ fuel, locate m p start (fuel + 1) = some { found := start, overflow := false } ∧
        new_camera_sector { found := start, overflow := false } = start) := by
  constructor
  · have hg := locate_init_good start hstart
    have h0 : queue_at (locate_init start) 0 = start := rfl
    obtain ⟨fuel, r, hr, hfull, hprop⟩ :=
      search_reaches m p s hin d 0 (locate_init start) hg (by show 0 < 1; decide)
        (by rw [h0]; exact hreach)
    refine ⟨fuel, r, hr, hfull, ?_⟩
    intro hov
    obtain ⟨h1, h2, earlier, h3, h4⟩ := hprop hov
    have hc : new_camera_sector r = r.found := by
      unfold new_camera_sector; rw [if_neg h1]
    rw [hc]
    refine ⟨h2, rfl, by simp [warns, h1], ?_, earlier, h3, h4⟩
    intro honly
    exact honly r.found (by rw [h3]; simp) h2
  · intro hs fuel
    constructor
    · have e : (locate_init start).queue (locate_init start).i = start := rfl
      have hn : (locate_init start).n ≠ 0 := by show (1 : Nat) ≠ 0; decide
      unfold locate
      simp only [locate_loop, if_neg hn, e, hs, if_true]
    · unfold new_camera_sector
      exact if_neg hstart

theorem two_rooms_reach : reach two_rooms 1 1 2 :=
  ⟨2, ⟨2, by decide, by decide, by decide⟩, rfl⟩

theorem room2_point_inside :
    point_in_sector two_rooms (two_rooms.sectors 2) room2_point = true := by
  norm_num [point_in_sector, point_in_sector_loop, point_side, two_rooms, room2_point, v2i_to_v2]

theorem room2_point_not_in_room1 :
    point_in_sector two_rooms (two_rooms.sectors 1) room2_point = false := by
  norm_num [point_in_sector, point_in_sector_loop, point_side, two_rooms, room2_point, v2i_to_v2]

/-- On `two_rooms` with the camera at `room2_point` and last known sector 1,
two iterations end the search: sector 1 is popped and rejected, its portal
pushes sector 2, and sector 2 is popped and accepted. -/
theorem two_rooms_locate :
    locate two_rooms room2_point 1 2 = some { found := 2, overflow := false } ∧
    visit_order two_rooms room2_point 2 (locate_init 1) = [1, 2] := by
  have hn : (locate_init 1).n ≠ 0 := by show (1 : Nat) ≠ 0; decide
  have e : (locate_init 1).queue (locate_init 1).i = 1 := rfl
  have henq := two_rooms_enqueue 1 (Or.inl rfl)
    { locate_init 1 with i := ((locate_init 1).i + 1) % QUEUE_MAX, n := (locate_init 1).n - 1 } rfl
  constructor
  · unfold locate
    unfold locate_loop
    rw [if_neg hn]
    simp only [e, room2_point_not_in_room1, Bool.false_eq_true, if_false]
    rw [henq]
    simp [locate_loop, locate_init, QUEUE_MAX, room2_point_inside]
  · unfold visit_order
    rw [if_neg hn]
    simp only [e, room2_point_not_in_room1, Bool.false_eq_true, if_false]
    rw [henq]
    simp [visit_order, locate_init, QUEUE_MAX, room2_point_inside]

/-- Instance of `locator_finds_containing_sector`: the map `two_rooms`, the
camera at `room2_point` inside room 2, last known sector 1; there the search
ends after two iterations with `found = 2` and no overflow, and
`camera.sector` becomes 2; started from sector 2 it leaves `camera.sector`
at 2. -/
theorem locator_finds_containing_sector_witness :
    (1 : Int) ≠ 0 ∧ reach two_rooms 1 1 2 ∧
    point_in_sector two_rooms (two_rooms.sectors 2) room2_point = true ∧
    ((∃ fuel r, locate two_rooms room2_point 1 fuel = some r ∧
      (r.overflow = true →
        QUEUE_MAX + (visit_order two_rooms room2_point fuel (locate_init 1)).length
          < 1 + ((visit_order two_rooms room2_point fuel (locate_init 1)).map
                  (portals_of two_rooms)).sum) ∧
      (r.overflow = false →
        point_in_sector two_rooms (two_rooms.sectors (new_camera_sector r)) room2_point = true ∧
        new_camera_sector r = r.found ∧ warns r = false ∧
        ((∀ id ∈ visit_order two_rooms room2_point fuel (locate_init 1),
            point_in_sector two_rooms (two_rooms.sectors id) room2_point = true → id = 2) →
          new_camera_sector r = 2) ∧
        ∃ earlier, visit_order two_rooms room2_point fuel (locate_init 1)
            = earlier ++ [new_camera_sector r] ∧
          ∀ id ∈ earlier, point_in_sector two_rooms (two_rooms.sectors id) room2_point = false)) ∧
    (point_in_sector two_rooms (two_rooms.sectors 1) room2_point = true →
      ∀ fuel, locate two_rooms room2_point 1 (fuel + 1)
          = some { found := 1, overflow := false } ∧
        new_camera_sector { found := 1, overflow := false } = 1)) ∧
    locate two_rooms room2_point 1 2 = some { found := 2, overflow := false } ∧
    visit_order two_rooms room2_point 2 (locate_init 1) = [1, 2] ∧
    new_camera_sector { found := 2, overflow := false } = 2 ∧
    warns { found := 2, overflow := false } = false ∧
    portals_of two_rooms 1 = 1 ∧ portals_of two_rooms 2 = 1 ∧
    (∀ fuel, locate two_rooms room2_point 2 (fuel + 1)
        = some { found := 2, overflow := false } ∧
      new_camera_sector { found := 2, overflow := false } = 2) :=
  ⟨by decide, two_rooms_reach, room2_point_inside,
    locator_finds_containing_sector two_rooms room2_point 1 2 1 (by decide) two_rooms_reach
      room2_point_inside,
    two_rooms_locate.1, two_rooms_locate.2, by decide, by decide, by decide, by decide,
    (locator_finds_containing_sector two_rooms room2_point 2 2 0 (by decide) rfl
      room2_point_inside).2 room2_point_inside⟩

/-- A wall body that does not abort leaves `sectdraw` alone, keeps the
entries below the old top of the work list and pushes at most one entry. -/
theorem wall_body_ok (m : SectorMap) (view : Int → Nat → Option WallView) (entry : queue_entry)
    (sec : sector) (i : Nat) (s s1 : RenderState)
    (h : wall_body m view entry sec i s = Except.ok s1) :
    s1.sectdraw = s.sectdraw ∧ s.n ≤ s1.n ∧ (s.n ≤ QUEUE_MAX → s1.n ≤ QUEUE_MAX) ∧
    (∀ t, t < s.n → s1.arr t = s.arr t) := by
  unfold wall_body at h
  split at h
  · cases h; exact ⟨rfl, le_refl _, id, fun _ _ => rfl⟩
  · split at h
    · cases h; exact ⟨rfl, le_refl _, id, fun _ _ => rfl⟩
    · split at h
      · cases h; exact ⟨rfl, le_refl _, id, fun _ _ => rfl⟩
      · simp only at h
        split at h
        · split at h
          · cases h
          · rename_i hfull
            cases h
            refine ⟨rfl, Nat.le_succ _, ?_, ?_⟩
            · intro hle
              have : s.n ≠ QUEUE_MAX := hfull
              show s.n + 1 ≤ QUEUE_MAX
              omega
            · intro t ht
              have hne : t ≠ s.n := by omega
              exact Function.update_noteq hne _ _
        · cases h; exact ⟨rfl, le_refl _, id, fun _ _ => rfl⟩

theorem wall_loop_ok (m : SectorMap) (view : Int → Nat → Option WallView) (entry : queue_entry)
    (sec : sector) : ∀ (k i : Nat) (s s1 : RenderState),
    wall_loop m view entry sec k i s = Except.ok s1 →
    s1.sectdraw = s.sectdraw ∧ s.n ≤ s1.n ∧ (s.n ≤ QUEUE_MAX → s1.n ≤ QUEUE_MAX) ∧
    (∀ t, t < s.n → s1.arr t = s.arr t) := by
  intro k
  induction k with
  | zero =>
    intro i s s1 h
    simp only [wall_loop, Except.ok.injEq] at h
    subst h
    exact ⟨rfl, le_refl _, id, fun _ _ => rfl⟩
  | succ k ih =>
    intro i s s1 h
    unfold wall_loop at h
    cases hb : wall_body m view entry sec i s with
    | error e => rw [hb] at h; cases h
    | ok s2 =>
      rw [hb] at h
      obtain ⟨a1, a2, a3, a4⟩ := wall_body_ok m view entry sec i s s2 hb
      obtain ⟨b1, b2, b3, b4⟩ := ih (i + 1) s2 s1 h
      refine ⟨b1.trans a1, le_trans a2 b2, fun hle => b3 (a3 hle), ?_⟩
      intro t ht
      rw [b4 t (by omega), a4 t ht]

/-- One iteration of the loop of `render` that does not abort: marks stay,
and the popped sector is marked. -/
theorem render_step_ok (m : SectorMap) (view : Int → Nat → Option WallView)
    (s s1 : RenderState) (h : render_step m view s = Except.ok s1) :
    (∀ id, s.sectdraw id = true → s1.sectdraw id = true) ∧
    s1.sectdraw (s.arr (s.n - 1)).id = true ∧
    (s.n ≠ 0 → s.n ≤ QUEUE_MAX → s1.n ≤ QUEUE_MAX) := by
  unfold render_step queue_pop at h
  simp only at h
  by_cases hd : s.sectdraw (s.arr (s.n - 1)).id = true
  · rw [if_pos hd] at h
    cases h
    exact ⟨fun _ hid => hid, hd, fun h0 hle => by show s.n - 1 ≤ QUEUE_MAX; omega⟩
  · rw [if_neg hd] at h
    obtain ⟨b1, _, b3, _⟩ := wall_loop_ok m view _ _ _ _ _ _ h
    rw [b1]
    refine ⟨?_, ?_, ?_⟩
    · intro id hid
      show Function.update s.sectdraw (s.arr (s.n - 1)).id true id = true
      by_cases he : id = (s.arr (s.n - 1)).id
      · rw [he]; exact Function.update_same _ _ _
      · rw [Function.update_noteq he]; exact hid
    · exact Function.update_same _ _ _
    · intro h0 hle
      exact b3 (by show s.n - 1 ≤ QUEUE_MAX; omega)

theorem drawn_order_fresh (m : SectorMap) (view : Int → Nat → Option WallView) :
    ∀ (fuel : Nat) (s : RenderState),
    (drawn_order m view fuel s).Nodup ∧
    ∀ id ∈ drawn_order m view fuel s, s.sectdraw id = false := by
  intro fuel
  induction fuel with
  | zero => intro s; simp [drawn_order]
  | succ fuel ih =>
    intro s
    unfold drawn_order
    by_cases hn : s.n = 0
    · rw [if_pos hn]; simp
    · rw [if_neg hn]
      cases hstep : render_step m view s with
      | error e =>
        simp only
        split_ifs with hd
        · simp
        · refine ⟨List.nodup_singleton _, ?_⟩
          intro id hid
          rw [List.mem_singleton] at hid
          rw [hid]
          simpa using hd
      | ok s1 =>
        simp only
        obtain ⟨k1, k2, _⟩ := render_step_ok m view s s1 hstep
        obtain ⟨i1, i2⟩ := ih s1
        have keep : ∀ id ∈ drawn_order m view fuel s1, s.sectdraw id = false := by
          intro id hid
          have h1 := i2 id hid
          cases hs : s.sectdraw id with
          | false => rfl
          | true => rw [k1 id hs] at h1; cases h1
        split_ifs with hd
        · exact ⟨i1, keep⟩
        · refine ⟨List.nodup_cons.mpr ⟨?_, i1⟩, ?_⟩
          · intro hmem
            have := i2 _ hmem
            rw [k2] at this
            cases this
          · intro id hid
            rcases List.mem_cons.mp hid with he | hm
            · rw [he]; simpa using hd
            · exact keep id hm

/-- C7: within one call of `render` the wall loop is entered at most once
for each sector id (the ids for which it is entered, over any number of
iterations from any state of the loop, are pairwise distinct); and an
iteration that pops an entry whose sector is already marked drawn only
removes that entry: pixels, `y_lo`, `y_hi`, `sectdraw` and the other
work-list entries are unchanged and nothing is pushed, whatever the column
window of the entry is. -/
theorem sector_rendered_once (m : SectorMap) (view : Int → Nat → Option WallView) :
    (∀ (fuel : Nat) (s : RenderState), (drawn_order m view fuel s).Nodup) ∧
    (∀ s : RenderState, s.sectdraw (s.arr (s.n - 1)).id = true →
      render_step m view s = Except.ok { s with n := s.n - 1 }) := by
  refine ⟨fun fuel s => (drawn_order_fresh m view fuel s).1, ?_⟩
  intro s hd
  unfold render_step queue_pop
  simp only
  rw [if_pos hd]

/-- The wall body aborts exactly when a portal wall that passes every
culling test meets a full work list. -/
theorem wall_body_error_iff (m : SectorMap) (view : Int → Nat → Option WallView)
    (entry : queue_entry) (sec : sector) (i : Nat) (s : RenderState) (msg : String) :
    wall_body m view entry sec i s = Except.error msg ↔
      (msg = "out of queue space" ∧ passes_culling view entry sec i ∧
        (m.walls (sec.firstwall + i)).portal ≠ 0 ∧ s.n = QUEUE_MAX) := by
  unfold wall_body passes_culling
  cases hv : view entry.id (sec.firstwall + i) with
  | none =>
    simp only
    constructor
    · intro h; cases h
    · rintro ⟨_, ⟨v, hv2, _⟩, _⟩; cases hv2
  | some v =>
    simp only
    by_cases h1 : v.tx0 > entry.x1
    · rw [if_pos h1]
      constructor
      · intro h; cases h
      · rintro ⟨_, ⟨v2, hv2, h3, _⟩, _⟩
        cases hv2
        exact absurd h1 h3
    · rw [if_neg h1]
      by_cases h2 : v.tx1 < entry.x0
      · rw [if_pos h2]
        constructor
        · intro h; cases h
        · rintro ⟨_, ⟨v2, hv2, _, h4⟩, _⟩
          cases hv2
          exact absurd h2 h4
      · rw [if_neg h2]
        by_cases hp : (m.walls (sec.firstwall + i)).portal ≠ 0
        · rw [if_pos hp]
          by_cases hfull : s.n = QUEUE_MAX
          · rw [if_pos hfull]
            constructor
            · intro h
              cases h
              exact ⟨rfl, ⟨v, rfl, h1, h2⟩, hp, hfull⟩
            · rintro ⟨hm, _⟩
              rw [hm]
          · rw [if_neg hfull]
            constructor
            · intro h; cases h
            · rintro ⟨_, _, _, h5⟩
              exact absurd h5 hfull
        · rw [if_neg hp]
          constructor
          · intro h; cases h
          · rintro ⟨_, _, h5, _⟩
            exact absurd h5 hp

/-- The wall loop aborts exactly when, after some walls processed without
abort, the body of the next wall aborts. -/
theorem wall_loop_error_iff (m : SectorMap) (view : Int → Nat → Option WallView)
    (entry : queue_entry) (sec : sector) (msg : String) :
    ∀ (k i : Nat) (s : RenderState),
    wall_loop m view entry sec k i s = Except.error msg ↔
      ∃ j sj, j < k ∧ wall_loop m view entry sec j i s = Except.ok sj ∧
        wall_body m view entry sec (i + j) sj = Except.error msg := by
  intro k
  induction k with
  | zero =>
    intro i s
    simp only [wall_loop]
    constructor
    · intro h; cases h
    · rintro ⟨j, _, hj, _⟩; omega
  | succ k ih =>
    intro i s
    constructor
    · intro h
      unfold wall_loop at h
      cases hb : wall_body m view entry sec i s with
      | error e =>
        rw [hb] at h
        simp only at h
        cases h
        exact ⟨0, s, Nat.succ_pos _, rfl, hb⟩
      | ok s1 =>
        rw [hb] at h
        simp only at h
        obtain ⟨j, sj, hj, hok, herr⟩ := (ih (i + 1) s1).mp h
        refine ⟨j + 1, sj, by omega, ?_, ?_⟩
        · unfold wall_loop
          rw [hb]
          exact hok
        · rw [← herr]
          congr 1
          omega
    · rintro ⟨j, sj, hj, hok, herr⟩
      unfold wall_loop
      cases j with
      | zero =>
        simp only [wall_loop, Except.ok.injEq] at hok
        subst hok
        rw [Nat.add_zero] at herr
        rw [herr]
      | succ j =>
        unfold wall_loop at hok
        cases hb : wall_body m view entry sec i s with
        | error e => rw [hb] at hok; cases hok
        | ok s1 =>
          rw [hb] at hok
          simp only at hok ⊢
          apply (ih (i + 1) s1).mpr
          refine ⟨j, sj, by omega, hok, ?_⟩
          rw [← herr]
          congr 1
          omega

/-- An iteration of the loop of `render` aborts, with the diagnostic "out of
queue space", exactly when a portal wall of the popped sector that passes
every culling test meets a full work list. -/
theorem render_step_error_iff (m : SectorMap) (view : Int → Nat → Option WallView)
    (s : RenderState) (msg : String) :
    render_step m view s = Except.error msg ↔
      (msg = "out of queue space" ∧ full_at_push m view s) := by
  unfold render_step queue_pop full_at_push
  simp only
  by_cases hd : s.sectdraw (s.arr (s.n - 1)).id = true
  · rw [if_pos hd]
    constructor
    · intro h; cases h
    · rintro ⟨_, h, _⟩; rw [hd] at h; cases h
  · rw [if_neg hd, wall_loop_error_iff]
    have hf : s.sectdraw (s.arr (s.n - 1)).id = false := by simpa using hd
    constructor
    · rintro ⟨j, sj, hj, hok, herr⟩
      rw [Nat.zero_add] at herr
      obtain ⟨e1, e2, e3, e4⟩ := (wall_body_error_iff m view _ _ _ _ _).mp herr
      exact ⟨e1, hf, j, sj, hj, hok, e2, e3, e4⟩
    · rintro ⟨e1, _, j, sj, hj, hok, e2, e3, e4⟩
      refine ⟨j, sj, hj, hok, ?_⟩
      rw [Nat.zero_add]
      exact (wall_body_error_iff m view _ _ _ _ _).mpr ⟨e1, e2, e3, e4⟩

theorem stack_congr (a b : Nat → queue_entry) :
    ∀ n, (∀ t, t < n → a t = b t) → stack a n = stack b n := by
  intro n
  induction n with
  | zero => intro _; rfl
  | succ n ih =>
    intro h
    simp only [stack]
    rw [h n (Nat.lt_succ_self n), ih (fun t ht => h t (by omega))]

theorem stack_length (a : Nat → queue_entry) : ∀ n, (stack a n).length = n := by
  intro n
  induction n with
  | zero => rfl
  | succ n ih => simp only [stack, List.length_cons, ih]

/-- A push puts the entry in front of the pending entries. -/
theorem pending_push (s : RenderState) (e : queue_entry) :
    pending (queue_push s e) = e :: pending s := by
  unfold pending queue_push
  simp only [stack]
  rw [Function.update_same]
  congr 1
  apply stack_congr
  intro t ht
  exact Function.update_noteq (by omega) _ _

/-- A pop takes the first pending entry. -/
theorem pending_pop (s : RenderState) (hn : s.n ≠ 0) :
    pending s = (queue_pop s).1 :: pending (queue_pop s).2 := by
  obtain ⟨k, hk⟩ := Nat.exists_eq_succ_of_ne_zero hn
  unfold pending queue_pop
  simp only
  rw [hk]
  rfl

/-- A wall body that does not abort pushes the entry `wall_push`, if any. -/
theorem wall_body_pending (m : SectorMap) (view : Int → Nat → Option WallView)
    (entry : queue_entry) (sec : sector) (i : Nat) (s s1 : RenderState)
    (h : wall_body m view entry sec i s = Except.ok s1) :
    pending s1 = (wall_push m view entry sec i).toList ++ pending s := by
  unfold wall_body at h
  unfold wall_push
  cases hv : view entry.id (sec.firstwall + i) with
  | none =>
    rw [hv] at h
    simp only [Except.ok.injEq] at h
    subst h
    rfl
  | some v =>
    rw [hv] at h
    simp only at h ⊢
    by_cases h1 : v.tx0 > entry.x1
    · rw [if_pos h1] at h ⊢
      simp only [Except.ok.injEq] at h
      subst h
      rfl
    · rw [if_neg h1] at h ⊢
      by_cases h2 : v.tx1 < entry.x0
      · rw [if_pos h2] at h ⊢
        simp only [Except.ok.injEq] at h
        subst h
        rfl
      · rw [if_neg h2] at h ⊢
        by_cases hp : (m.walls (sec.firstwall + i)).portal ≠ 0
        · rw [if_pos hp] at h ⊢
          by_cases hfull : s.n = QUEUE_MAX
          · rw [if_pos hfull] at h
            cases h
          · rw [if_neg hfull] at h
            simp only [Except.ok.injEq] at h
            subst h
            rw [pending_push]
            rfl
        · rw [if_neg hp] at h ⊢
          simp only [Except.ok.injEq] at h
          subst h
          rfl

/-- A wall loop that does not abort leaves the entries it pushed in front of
the pending entries, the last pushed first. -/
theorem wall_loop_pending (m : SectorMap) (view : Int → Nat → Option WallView)
    (entry : queue_entry) (sec : sector) : ∀ (k i : Nat) (s s1 : RenderState),
    wall_loop m view entry sec k i s = Except.ok s1 →
    pending s1 = (wall_pushes m view entry sec k i).reverse ++ pending s := by
  intro k
  induction k with
  | zero =>
    intro i s s1 h
    simp only [wall_loop, Except.ok.injEq] at h
    subst h
    rfl
  | succ k ih =>
    intro i s s1 h
    unfold wall_loop at h
    cases hb : wall_body m view entry sec i s with
    | error e => rw [hb] at h; cases h
    | ok s2 =>
      rw [hb] at h
      rw [ih (i + 1) s2 s1 h, wall_body_pending m view entry sec i s s2 hb]
      simp only [wall_pushes, List.reverse_append, List.append_assoc]
      congr 2
      cases wall_push m view entry sec i <;> rfl

/-- An iteration that does not abort replaces the popped entry by the
entries pushed for the walls of its sector, the last pushed first, and by
nothing when the sector was already drawn. -/
theorem render_step_pending (m : SectorMap) (view : Int → Nat → Option WallView)
    (s s1 : RenderState) (hn : s.n ≠ 0) (h : render_step m view s = Except.ok s1) :
    pending s1 =
      (if s.sectdraw (queue_pop s).1.id then []
        else (wall_pushes m view (queue_pop s).1 (m.sectors (queue_pop s).1.id)
          (m.sectors (queue_pop s).1.id).nwalls 0).reverse) ++ (pending s).tail := by
  rw [pending_pop s hn, List.tail_cons]
  unfold render_step at h
  simp only at h
  by_cases hd : (queue_pop s).2.sectdraw (queue_pop s).1.id = true
  · rw [if_pos hd] at h
    simp only [Except.ok.injEq] at h
    subst h
    have hd2 : s.sectdraw (queue_pop s).1.id = true := hd
    rw [if_pos hd2]
    rfl
  · rw [if_neg hd] at h
    have hd2 : ¬ s.sectdraw (queue_pop s).1.id = true := hd
    rw [if_neg hd2, wall_loop_pending m view _ _ _ _ _ _ h]
    rfl

theorem render_loop_error_iff (m : SectorMap) (view : Int → Nat → Option WallView)
    (msg : String) : ∀ (fuel : Nat) (s : RenderState),
    render_loop m view fuel s = some (Except.error msg) ↔
      ∃ k sk, k < fuel ∧ render_iter m view k s = some sk ∧ sk.n ≠ 0 ∧
        render_step m view sk = Except.error msg := by
  intro fuel
  induction fuel with
  | zero =>
    intro s
    constructor
    · intro h; cases h
    · rintro ⟨k, _, hk, _⟩; omega
  | succ fuel ih =>
    intro s
    unfold render_loop
    by_cases hn : s.n = 0
    · rw [if_pos hn]
      constructor
      · intro h; cases h
      · rintro ⟨k, sk, _, hit, hsk, _⟩
        cases k with
        | zero =>
          simp only [render_iter, Option.some.injEq] at hit
          subst hit
          exact absurd hn hsk
        | succ k =>
          simp only [render_iter, if_pos hn] at hit
          cases hit
    · rw [if_neg hn]
      cases hstep : render_step m view s with
      | error e =>
        simp only
        constructor
        · intro h
          cases h
          exact ⟨0, s, Nat.succ_pos _, rfl, hn, hstep⟩
        · rintro ⟨k, sk, _, hit, _, herr⟩
          cases k with
          | zero =>
            simp only [render_iter, Option.some.injEq] at hit
            subst hit
            rw [hstep] at herr
            cases herr
            rfl
          | succ k =>
            simp only [render_iter, if_neg hn, hstep] at hit
            cases hit
      | ok s1 =>
        simp only
        rw [ih s1]
        constructor
        · rintro ⟨k, sk, hk, hit, hsk, herr⟩
          refine ⟨k + 1, sk, by omega, ?_, hsk, herr⟩
          simp only [render_iter, if_neg hn, hstep]
          exact hit
        · rintro ⟨k, sk, hk, hit, hsk, herr⟩
          cases k with
          | zero =>
            simp only [render_iter, Option.some.injEq] at hit
            subst hit
            rw [hstep] at herr
            cases herr
          | succ k =>
            simp only [render_iter, if_neg hn, hstep] at hit
            exact ⟨k, sk, by omega, hit, hsk, herr⟩

theorem render_loop_ok_iff (m : SectorMap) (view : Int → Nat → Option WallView)
    (t : RenderState) : ∀ (fuel : Nat) (s : RenderState),
    render_loop m view fuel s = some (Except.ok t) ↔
      ∃ k, k < fuel ∧ render_iter m view k s = some t ∧ t.n = 0 := by
  intro fuel
  induction fuel with
  | zero =>
    intro s
    constructor
    · intro h; cases h
    · rintro ⟨k, hk, _⟩; omega
  | succ fuel ih =>
    intro s
    unfold render_loop
    by_cases hn : s.n = 0
    · rw [if_pos hn]
      constructor
      · intro h
        simp only [Option.some.injEq, Except.ok.injEq] at h
        subst h
        exact ⟨0, Nat.succ_pos _, rfl, hn⟩
      · rintro ⟨k, _, hit, _⟩
        cases k with
        | zero =>
          simp only [render_iter, Option.some.injEq] at hit
          subst hit
          rfl
        | succ k =>
          simp only [render_iter, if_pos hn] at hit
          cases hit
    · rw [if_neg hn]
      cases hstep : render_step m view s with
      | error e =>
        simp only
        constructor
        · intro h; cases h
        · rintro ⟨k, _, hit, ht⟩
          cases k with
          | zero =>
            simp only [render_iter, Option.some.injEq] at hit
            subst hit
            exact absurd ht hn
          | succ k =>
            simp only [render_iter, if_neg hn, hstep] at hit
            cases hit
      | ok s1 =>
        simp only
        rw [ih s1]
        constructor
        · rintro ⟨k, hk, hit, ht⟩
          refine ⟨k + 1, by omega, ?_, ht⟩
          simp only [render_iter, if_neg hn, hstep]
          exact hit
        · rintro ⟨k, hk, hit, ht⟩
          cases k with
          | zero =>
            simp only [render_iter, Option.some.injEq] at hit
            subst hit
            exact absurd ht hn
          | succ k =>
            simp only [render_iter, if_neg hn, hstep] at hit
            exact ⟨k, by omega, hit, ht⟩

/-- A result of the loop does not depend on the iteration bound. -/
theorem render_loop_mono (m : SectorMap) (view : Int → Nat → Option WallView)
    (r : Except String RenderState) : ∀ (fuel extra : Nat) (s : RenderState),
    render_loop m view fuel s = some r → render_loop m view (fuel + extra) s = some r := by
  intro fuel
  induction fuel with
  | zero => intro extra s h; cases h
  | succ fuel ih =>
    intro extra s h
    rw [Nat.succ_add]
    unfold render_loop at h ⊢
    by_cases hn : s.n = 0
    · rw [if_pos hn] at h ⊢
      exact h
    · rw [if_neg hn] at h ⊢
      cases hstep : render_step m view s with
      | error e =>
        rw [hstep] at h
        exact h
      | ok s1 =>
        rw [hstep] at h
        exact ih extra s1 h

/-- The work list holds at most `QUEUE_MAX` entries after any number of
iterations that ran without abort. -/
theorem render_iter_bound (m : SectorMap) (view : Int → Nat → Option WallView) :
    ∀ (k : Nat) (s t : RenderState), render_iter m view k s = some t →
    s.n ≤ QUEUE_MAX → t.n ≤ QUEUE_MAX := by
  intro k
  induction k with
  | zero =>
    intro s t h hle
    simp only [render_iter, Option.some.injEq] at h
    subst h
    exact hle
  | succ k ih =>
    intro s t h hle
    unfold render_iter at h
    by_cases hn : s.n = 0
    · rw [if_pos hn] at h; cases h
    · rw [if_neg hn] at h
      cases hstep : render_step m view s with
      | error e => rw [hstep] at h; cases h
      | ok s1 =>
        rw [hstep] at h
        exact ih s1 t h ((render_step_ok m view s s1 hstep).2.2 hn hle)

/-- The entry popped by iteration `k + 1` is the first pending entry of the
state after `k` iterations. -/
theorem popped_order_snoc (m : SectorMap) (view : Int → Nat → Option WallView) :
    ∀ (k : Nat) (s sk : RenderState), render_iter m view k s = some sk → sk.n ≠ 0 →
    popped_order m view (k + 1) s = popped_order m view k s ++ [(queue_pop sk).1] := by
  intro k
  induction k with
  | zero =>
    intro s sk h hsk
    simp only [render_iter, Option.some.injEq] at h
    subst h
    unfold popped_order
    rw [if_neg hsk]
    cases render_step m view s <;> rfl
  | succ k ih =>
    intro s sk h hsk
    unfold render_iter at h
    by_cases hn : s.n = 0
    · rw [if_pos hn] at h; cases h
    · rw [if_neg hn] at h
      cases hstep : render_step m view s with
      | error e => rw [hstep] at h; cases h
      | ok s1 =>
        rw [hstep] at h
        have e1 : popped_order m view (k + 1 + 1) s
            = (queue_pop s).1 :: popped_order m view (k + 1) s1 := by
          rw [popped_order, if_neg hn, hstep]
        have e2 : popped_order m view (k + 1) s
            = (queue_pop s).1 :: popped_order m view k s1 := by
          rw [popped_order, if_neg hn, hstep]
        rw [e1, e2, ih s1 sk h hsk]
        rfl

theorem render_iter_snoc (m : SectorMap) (view : Int → Nat → Option WallView) :
    ∀ (k : Nat) (s sk s1 : RenderState), render_iter m view k s = some sk → sk.n ≠ 0 →
    render_step m view sk = Except.ok s1 → render_iter m view (k + 1) s = some s1 := by
  intro k
  induction k with
  | zero =>
    intro s sk s1 h hsk hstep
    simp only [render_iter, Option.some.injEq] at h
    subst h
    simp only [render_iter, if_neg hsk, hstep]
  | succ k ih =>
    intro s sk s1 h hsk hstep
    unfold render_iter at h
    by_cases hn : s.n = 0
    · rw [if_pos hn] at h; cases h
    · rw [if_neg hn] at h
      cases hs : render_step m view s with
      | error e => rw [hs] at h; cases h
      | ok s2 =>
        rw [hs] at h
        have := ih s2 sk s1 h hsk hstep
        rw [render_iter, if_neg hn, hs]
        exact this

/-- C8: `render` aborts, and then with the diagnostic "out of queue space",
exactly when some iteration of its loop, reached after iterations that ran
without abort, pops a sector not yet drawn and comes to a portal wall of it
that passes every culling test while the work list holds `QUEUE_MAX`
entries (the body of a wall aborts exactly in that case); `render` ends
normally exactly when the work list is found empty after some iterations
without abort, and its result does not change with a larger iteration
bound; in every state reached by the loop, and after every wall of every
iteration, the work list holds at most `QUEUE_MAX` pending entries; and the
work list is a stack: every iteration processes the first pending entry, an
iteration replaces it by the entries it pushed, the last pushed first, so
the entry pushed last is the entry processed by the next iteration. Two runs
are evaluated: on `many_portals`, a sector with 65 visible portal walls,
`render` aborts in its first iteration; on `two_rooms` it ends normally
after popping the camera sector, the neighbour pushed by it, and the entry
pushed by the neighbour. -/
theorem work_list_exhaustion (m : SectorMap) (view : Int → Nat → Option WallView)
    (fb : State) (cam_sector : Int) :
    (∀ (fuel : Nat) (msg : String),
      render m view fb cam_sector fuel = some (Except.error msg) ↔
        (msg = "out of queue space" ∧
          ∃ k sk, k < fuel ∧ render_iter m view k (render_init fb cam_sector) = some sk ∧
            sk.n ≠ 0 ∧ full_at_push m view sk)) ∧
    (∀ (entry : queue_entry) (sec : sector) (i : Nat) (s : RenderState) (msg : String),
      wall_body m view entry sec i s = Except.error msg ↔
        (msg = "out of queue space" ∧ passes_culling view entry sec i ∧
          (m.walls (sec.firstwall + i)).portal ≠ 0 ∧ s.n = QUEUE_MAX)) ∧
    (∀ (fuel : Nat) (t : RenderState),
      render m view fb cam_sector fuel = some (Except.ok t) ↔
        ∃ k, k < fuel ∧ render_iter m view k (render_init fb cam_sector) = some t ∧ t.n = 0) ∧
    (∀ (fuel extra : Nat) (r : Except String RenderState),
      render m view fb cam_sector fuel = some r →
        render m view fb cam_sector (fuel + extra) = some r) ∧
    (∀ (k : Nat) (sk : RenderState),
      render_iter m view k (render_init fb cam_sector) = some sk →
        sk.n ≤ QUEUE_MAX ∧ (pending sk).length = sk.n ∧
        ∀ (j : Nat) (sj : RenderState),
          wall_loop m view (sk.arr (sk.n - 1)) (m.sectors (sk.arr (sk.n - 1)).id) j 0
            { sk with
              sectdraw := Function.update sk.sectdraw (sk.arr (sk.n - 1)).id true
              n := sk.n - 1 } = Except.ok sj →
          sj.n ≤ QUEUE_MAX) ∧
    (∀ (k : Nat) (sk : RenderState),
      render_iter m view k (render_init fb cam_sector) = some sk → sk.n ≠ 0 →
        popped_order m view (k + 1) (render_init fb cam_sector)
          = popped_order m view k (render_init fb cam_sector) ++ [(queue_pop sk).1] ∧
        (pending sk).head? = some (queue_pop sk).1 ∧
        ∀ s1 : RenderState, render_step m view sk = Except.ok s1 →
          pending s1 =
            (if sk.sectdraw (queue_pop sk).1.id then []
              else (wall_pushes m view (queue_pop sk).1 (m.sectors (queue_pop sk).1.id)
                (m.sectors (queue_pop sk).1.id).nwalls 0).reverse) ++ (pending sk).tail ∧
          ∀ e : queue_entry, sk.sectdraw (queue_pop sk).1.id = false →
            (wall_pushes m view (queue_pop sk).1 (m.sectors (queue_pop sk).1.id)
              (m.sectors (queue_pop sk).1.id).nwalls 0).getLast? = some e →
            s1.n ≠ 0 ∧ (queue_pop s1).1 = e ∧
            popped_order m view (k + 2) (render_init fb cam_sector)
              = popped_order m view k (render_init fb cam_sector) ++ [(queue_pop sk).1, e]) ∧
    render many_portals fan_view blank 1 1 = some (Except.error "out of queue space") ∧
    (∃ t, render two_rooms plain_view blank 1 4 = some (Except.ok t) ∧ t.n = 0) ∧
    popped_order two_rooms plain_view 4 (render_init blank 1)
      = [{ id := 1, x0 := 0, x1 := 383 }, { id := 2, x0 := 100, x1 := 300 },
         { id := 1, x0 := 100, x1 := 300 }] := by
  have hinit : (render_init fb cam_sector).n ≤ QUEUE_MAX := by
    show 1 ≤ QUEUE_MAX
    decide
  refine ⟨?_, fun entry sec i s msg => wall_body_error_iff m view entry sec i s msg,
    fun fuel t => render_loop_ok_iff m view t fuel _,
    fun fuel extra r h => render_loop_mono m view r fuel extra _ h, ?_, ?_, rfl, ⟨_, rfl, rfl⟩, rfl⟩
  · intro fuel msg
    unfold render
    rw [render_loop_error_iff]
    constructor
    · rintro ⟨k, sk, hk, hit, hsk, herr⟩
      obtain ⟨e1, e2⟩ := (render_step_error_iff m view sk msg).mp herr
      exact ⟨e1, k, sk, hk, hit, hsk, e2⟩
    · rintro ⟨e1, k, sk, hk, hit, hsk, e2⟩
      exact ⟨k, sk, hk, hit, hsk, (render_step_error_iff m view sk msg).mpr ⟨e1, e2⟩⟩
  · intro k sk hit
    have hle := render_iter_bound m view k _ sk hit hinit
    refine ⟨hle, stack_length _ _, ?_⟩
    intro j sj hloop
    exact (wall_loop_ok m view _ _ _ _ _ _ hloop).2.2.1 (by show sk.n - 1 ≤ QUEUE_MAX; omega)
  · intro k sk hit hsk
    refine ⟨popped_order_snoc m view k _ sk hit hsk, ?_, ?_⟩
    · rw [pending_pop sk hsk]
      rfl
    · intro s1 hstep
      have hp := render_step_pending m view sk s1 hsk hstep
      refine ⟨hp, ?_⟩
      intro e hd hlast
      rw [hd] at hp
      simp only [Bool.false_eq_true, if_false] at hp
      rw [← List.head?_reverse] at hlast
      cases hl : (wall_pushes m view (queue_pop sk).1 (m.sectors (queue_pop sk).1.id)
          (m.sectors (queue_pop sk).1.id).nwalls 0).reverse with
      | nil => rw [hl] at hlast; cases hlast
      | cons a tl =>
        rw [hl] at hlast hp
        simp only [List.head?_cons, Option.some.injEq] at hlast
        subst hlast
        have hlen : (pending s1).length = s1.n := stack_length _ _
        have hn1 : s1.n ≠ 0 := by
          rw [hp] at hlen
          simp only [List.cons_append, List.length_cons] at hlen
          omega
        have hpop := pending_pop s1 hn1
        rw [hp] at hpop
        simp only [List.cons_append, List.cons.injEq] at hpop
        refine ⟨hn1, hpop.1.symm, ?_⟩
        have hit1 := render_iter_snoc m view k _ sk s1 hit hsk hstep
        rw [popped_order_snoc m view (k + 1) _ s1 hit1 hn1,
          popped_order_snoc m view k _ sk hit hsk, ← hpop.1]
        simp

/-- C9: in exact arithmetic `intersect_segs` is symmetric under swapping the
two segments: `intersect_segs(a0, a1, b0, b1)` and
`intersect_segs(b0, b1, a0, a1)` are both the sentinel or both the same
point. -/
theorem intersect_segs_symm (a0 a1 b0 b1 : v2) :
    intersect_segs a0 a1 b0 b1 = intersect_segs b0 b1 a0 a1 := by
  unfold intersect_segs
  simp only
  have hd : ((b0.x - b1.x) * (a0.y - a1.y)) - ((b0.y - b1.y) * (a0.x - a1.x))
      = -(((a0.x - a1.x) * (b0.y - b1.y)) - ((a0.y - a1.y) * (b0.x - b1.x))) := by ring
  rw [hd]
  generalize hdef : ((a0.x - a1.x) * (b0.y - b1.y)) - ((a0.y - a1.y) * (b0.x - b1.x)) = d
  rw [abs_neg]
  by_cases hsmall : |d| < 1 / 1000000
  · rw [if_pos hsmall, if_pos hsmall]
  · rw [if_neg hsmall, if_neg hsmall]
    have hd0 : d ≠ 0 := by
      intro h0
      apply hsmall
      rw [h0, abs_zero]
      norm_num
    have ht : (((b0.x - a0.x) * (a0.y - a1.y)) - ((b0.y - a0.y) * (a0.x - a1.x))) / -d
        = (((a0.x - b0.x) * (a0.y - a1.y)) - ((a0.y - b0.y) * (a0.x - a1.x))) / d := by
      rw [div_neg, ← neg_div]
      congr 1
      ring
    have hu : (((b0.x - a0.x) * (b0.y - b1.y)) - ((b0.y - a0.y) * (b0.x - b1.x))) / -d
        = (((a0.x - b0.x) * (b0.y - b1.y)) - ((a0.y - b0.y) * (b0.x - b1.x))) / d := by
      rw [div_neg, ← neg_div]
      congr 1
      ring
    rw [ht, hu]
    generalize htdef :
      (((a0.x - b0.x) * (b0.y - b1.y)) - ((a0.y - b0.y) * (b0.x - b1.x))) / d = t
    generalize hudef :
      (((a0.x - b0.x) * (a0.y - a1.y)) - ((a0.y - b0.y) * (a0.x - a1.x))) / d = u
    have htd : t * d = ((a0.x - b0.x) * (b0.y - b1.y)) - ((a0.y - b0.y) * (b0.x - b1.x)) := by
      rw [← htdef]; field_simp
    have hud : u * d = ((a0.x - b0.x) * (a0.y - a1.y)) - ((a0.y - b0.y) * (a0.x - a1.x)) := by
      rw [← hudef]; field_simp
    by_cases hc : t ≥ 0 ∧ t ≤ 1 ∧ u ≥ 0 ∧ u ≤ 1
    · have hc2 : u ≥ 0 ∧ u ≤ 1 ∧ t ≥ 0 ∧ t ≤ 1 := ⟨hc.2.2.1, hc.2.2.2, hc.1, hc.2.1⟩
      rw [if_pos hc, if_pos hc2]
      have hx : a0.x + t * (a1.x - a0.x) = b0.x + u * (b1.x - b0.x) := by
        apply mul_right_cancel₀ hd0
        linear_combination (a1.x - a0.x) * htd - (b1.x - b0.x) * hud - (a0.x - b0.x) * hdef
      have hy : a0.y + t * (a1.y - a0.y) = b0.y + u * (b1.y - b0.y) := by
        apply mul_right_cancel₀ hd0
        linear_combination (a1.y - a0.y) * htd - (b1.y - b0.y) * hud - (a0.y - b0.y) * hdef
      rw [hx, hy]
    · have hc2 : ¬ (u ≥ 0 ∧ u ≤ 1 ∧ t ≥ 0 ∧ t ≤ 1) := by
        intro h
        exact hc ⟨h.2.2.1, h.2.2.2, h.1, h.2.1⟩
      rw [if_neg hc, if_neg hc2]

/-- C10: in exact arithmetic, whenever `intersect_segs(a0, a1, b0, b1)`
returns a point `P` (not the sentinel), `P` lies on both segments:
`P = a0 + t*(a1 - a0)` and `P = b0 + u*(b1 - b0)` for some `t`, `u` in
`[0, 1]`. -/
theorem intersect_segs_on_both (a0 a1 b0 b1 P : v2)
    (h : intersect_segs a0 a1 b0 b1 = some P) :
    ∃ t u : ℚ, 0 ≤ t ∧ t ≤ 1 ∧ 0 ≤ u ∧ u ≤ 1 ∧
      P.x = a0.x + t * (a1.x - a0.x) ∧ P.y = a0.y + t * (a1.y - a0.y) ∧
      P.x = b0.x + u * (b1.x - b0.x) ∧ P.y = b0.y + u * (b1.y - b0.y) := by
  unfold intersect_segs at h
  simp only at h
  generalize hdef : ((a0.x - a1.x) * (b0.y - b1.y)) - ((a0.y - a1.y) * (b0.x - b1.x)) = d at h
  by_cases hsmall : |d| < 1 / 1000000
  · rw [if_pos hsmall] at h; cases h
  · rw [if_neg hsmall] at h
    have hd0 : d ≠ 0 := by
      intro h0
      apply hsmall
      rw [h0, abs_zero]
      norm_num
    generalize htdef :
      (((a0.x - b0.x) * (b0.y - b1.y)) - ((a0.y - b0.y) * (b0.x - b1.x))) / d = t at h
    generalize hudef :
      (((a0.x - b0.x) * (a0.y - a1.y)) - ((a0.y - b0.y) * (a0.x - a1.x))) / d = u at h
    have htd : t * d = ((a0.x - b0.x) * (b0.y - b1.y)) - ((a0.y - b0.y) * (b0.x - b1.x)) := by
      rw [← htdef]; field_simp
    have hud : u * d = ((a0.x - b0.x) * (a0.y - a1.y)) - ((a0.y - b0.y) * (a0.x - a1.x)) := by
      rw [← hudef]; field_simp
    by_cases hc : t ≥ 0 ∧ t ≤ 1 ∧ u ≥ 0 ∧ u ≤ 1
    · rw [if_pos hc] at h
      have hP : P = { x := a0.x + (t * (a1.x - a0.x)), y := a0.y + (t * (a1.y - a0.y)) } :=
        (Option.some.inj h).symm
      have hx : a0.x + t * (a1.x - a0.x) = b0.x + u * (b1.x - b0.x) := by
        apply mul_right_cancel₀ hd0
        linear_combination (a1.x - a0.x) * htd - (b1.x - b0.x) * hud - (a0.x - b0.x) * hdef
      have hy : a0.y + t * (a1.y - a0.y) = b0.y + u * (b1.y - b0.y) := by
        apply mul_right_cancel₀ hd0
        linear_combination (a1.y - a0.y) * htd - (b1.y - b0.y) * hud - (a0.y - b0.y) * hdef
      refine ⟨t, u, hc.1, hc.2.1, hc.2.2.1, hc.2.2.2, ?_, ?_, ?_, ?_⟩
      · rw [hP]
      · rw [hP]
      · rw [hP]; exact hx
      · rw [hP]; exact hy
    · rw [if_neg hc] at h; cases h

theorem diagonals_meet :
    intersect_segs diag_a0 diag_a1 diag_b0 diag_b1 = some { x := 1, y := 1 } := by
  norm_num [intersect_segs, diag_a0, diag_a1, diag_b0, diag_b1, abs_lt]

/-- Instance of `intersect_segs_on_both`: the diagonals of a square meet at
its centre. -/
theorem intersect_segs_on_both_witness :
    intersect_segs diag_a0 diag_a1 diag_b0 diag_b1 = some { x := 1, y := 1 } ∧
    ∃ t u : ℚ, 0 ≤ t ∧ t ≤ 1 ∧ 0 ≤ u ∧ u ≤ 1 ∧
      (1 : ℚ) = diag_a0.x + t * (diag_a1.x - diag_a0.x) ∧
      (1 : ℚ) = diag_a0.y + t * (diag_a1.y - diag_a0.y) ∧
      (1 : ℚ) = diag_b0.x + u * (diag_b1.x - diag_b0.x) ∧
      (1 : ℚ) = diag_b0.y + u * (diag_b1.y - diag_b0.y) :=
  ⟨diagonals_meet,
    intersect_segs_on_both diag_a0 diag_a1 diag_b0 diag_b1 { x := 1, y := 1 } diagonals_meet⟩

theorem intersect_segs_eq (a0 a1 b0 b1 : v2) :
    intersect_segs a0 a1 b0 b1 =
      if |seg_d a0 a1 b0 b1| < 1 / 1000000 then none
      else if seg_t a0 a1 b0 b1 ≥ 0 ∧ seg_t a0 a1 b0 b1 ≤ 1 ∧
          seg_u a0 a1 b0 b1 ≥ 0 ∧ seg_u a0 a1 b0 b1 ≤ 1 then
        some { x := a0.x + (seg_t a0 a1 b0 b1 * (a1.x - a0.x)),
               y := a0.y + (seg_t a0 a1 b0 b1 * (a1.y - a0.y)) }
      else none := rfl

/-- When the determinant is not zero, a common point of the two segments
has the parameters computed by `intersect_segs`. -/
theorem seg_params_unique (a0 a1 b0 b1 : v2) (t u : ℚ) (hd : seg_d a0 a1 b0 b1 ≠ 0)
    (hx : a0.x + t * (a1.x - a0.x) = b0.x + u * (b1.x - b0.x))
    (hy : a0.y + t * (a1.y - a0.y) = b0.y + u * (b1.y - b0.y)) :
    t = seg_t a0 a1 b0 b1 ∧ u = seg_u a0 a1 b0 b1 := by
  unfold seg_t seg_u
  generalize hdef : seg_d a0 a1 b0 b1 = d at hd
  unfold seg_d at hdef
  constructor
  · rw [eq_div_iff hd]
    linear_combination -(b0.y - b1.y) * hx + (b0.x - b1.x) * hy - t * hdef
  · rw [eq_div_iff hd]
    linear_combination -(a0.y - a1.y) * hx + (a0.x - a1.x) * hy - u * hdef

/-- When the determinant is not zero, the parameters computed by
`intersect_segs` give one and the same point on the two lines. -/
theorem seg_params_meet (a0 a1 b0 b1 : v2) (hd : seg_d a0 a1 b0 b1 ≠ 0) :
    a0.x + seg_t a0 a1 b0 b1 * (a1.x - a0.x) = b0.x + seg_u a0 a1 b0 b1 * (b1.x - b0.x) ∧
    a0.y + seg_t a0 a1 b0 b1 * (a1.y - a0.y) = b0.y + seg_u a0 a1 b0 b1 * (b1.y - b0.y) := by
  have htd : seg_t a0 a1 b0 b1 * seg_d a0 a1 b0 b1
      = ((a0.x - b0.x) * (b0.y - b1.y)) - ((a0.y - b0.y) * (b0.x - b1.x)) := by
    unfold seg_t; field_simp
  have hud : seg_u a0 a1 b0 b1 * seg_d a0 a1 b0 b1
      = ((a0.x - b0.x) * (a0.y - a1.y)) - ((a0.y - b0.y) * (a0.x - a1.x)) := by
    unfold seg_u; field_simp
  generalize seg_t a0 a1 b0 b1 = t at htd
  generalize seg_u a0 a1 b0 b1 = u at hud
  generalize hdef : seg_d a0 a1 b0 b1 = d at hd htd hud
  unfold seg_d at hdef
  constructor
  · apply mul_right_cancel₀ hd
    linear_combination (a1.x - a0.x) * htd - (b1.x - b0.x) * hud - (a0.x - b0.x) * hdef
  · apply mul_right_cancel₀ hd
    linear_combination (a1.y - a0.y) * htd - (b1.y - b0.y) * hud - (a0.y - b0.y) * hdef

/-- C11, as stated, fails: the diagonals of the square of side `1/2000`
cross properly, at their midpoints (`t = u = 1/2`) and at right angles, but
their determinant `-1/2000000` is below the threshold and `intersect_segs`
returns the sentinel. -/
theorem short_crossing_gives_sentinel :
    short_a0.x + 1 / 2 * (short_a1.x - short_a0.x)
      = short_b0.x + 1 / 2 * (short_b1.x - short_b0.x) ∧
    short_a0.y + 1 / 2 * (short_a1.y - short_a0.y)
      = short_b0.y + 1 / 2 * (short_b1.y - short_b0.y) ∧
    seg_d short_a0 short_a1 short_b0 short_b1 = -(1 / 2000000) ∧
    seg_t short_a0 short_a1 short_b0 short_b1 = 1 / 2 ∧
    seg_u short_a0 short_a1 short_b0 short_b1 = 1 / 2 ∧
    intersect_segs short_a0 short_a1 short_b0 short_b1 = none := by
  refine ⟨?_, ?_, ?_, ?_, ?_, ?_⟩
  · norm_num [short_a0, short_a1, short_b0, short_b1]
  · norm_num [short_a0, short_a1, short_b0, short_b1]
  · norm_num [seg_d, short_a0, short_a1, short_b0, short_b1]
  · norm_num [seg_t, seg_d, short_a0, short_a1, short_b0, short_b1]
  · norm_num [seg_u, seg_d, short_a0, short_a1, short_b0, short_b1]
  · norm_num [intersect_segs, short_a0, short_a1, short_b0, short_b1, abs_lt]

/-- C11 (amended): in exact arithmetic `intersect_segs` returns the sentinel
if and only if the determinant has `|d| < 0.000001` (the segments count as
parallel) or one of the parameters `t`, `u` is outside `[0, 1]`. It returns
a point, their common point, for two segments that cross (share a point
with parameters in `[0, 1]`) and whose determinant is not below the
threshold, and never returns a point for segments that count as parallel.
In terms of the segments alone: the sentinel is returned if and only if the
segments count as parallel or have no common point. -/
theorem intersect_segs_none_iff (a0 a1 b0 b1 : v2) :
    (intersect_segs a0 a1 b0 b1 = none ↔
      (|seg_d a0 a1 b0 b1| < 1 / 1000000 ∨
        ¬ (0 ≤ seg_t a0 a1 b0 b1 ∧ seg_t a0 a1 b0 b1 ≤ 1) ∨
        ¬ (0 ≤ seg_u a0 a1 b0 b1 ∧ seg_u a0 a1 b0 b1 ≤ 1))) ∧
    (∀ t u : ℚ, ¬ |seg_d a0 a1 b0 b1| < 1 / 1000000 →
      0 ≤ t → t ≤ 1 → 0 ≤ u → u ≤ 1 →
      a0.x + t * (a1.x - a0.x) = b0.x + u * (b1.x - b0.x) →
      a0.y + t * (a1.y - a0.y) = b0.y + u * (b1.y - b0.y) →
      intersect_segs a0 a1 b0 b1
        = some { x := a0.x + t * (a1.x - a0.x), y := a0.y + t * (a1.y - a0.y) }) ∧
    (|seg_d a0 a1 b0 b1| < 1 / 1000000 → intersect_segs a0 a1 b0 b1 = none) ∧
    (seg_d a0 a1 b0 b1 = 0 → intersect_segs a0 a1 b0 b1 = none) ∧
    (intersect_segs a0 a1 b0 b1 = none ↔
      (|seg_d a0 a1 b0 b1| < 1 / 1000000 ∨
        ¬ ∃ t u : ℚ, 0 ≤ t ∧ t ≤ 1 ∧ 0 ≤ u ∧ u ≤ 1 ∧
          a0.x + t * (a1.x - a0.x) = b0.x + u * (b1.x - b0.x) ∧
          a0.y + t * (a1.y - a0.y) = b0.y + u * (b1.y - b0.y))) := by
  rw [intersect_segs_eq]
  refine ⟨?_, ?_, ?_, ?_, ?_⟩
  · by_cases hsmall : |seg_d a0 a1 b0 b1| < 1 / 1000000
    · rw [if_pos hsmall]
      exact ⟨fun _ => Or.inl hsmall, fun _ => rfl⟩
    · rw [if_neg hsmall]
      by_cases hc : seg_t a0 a1 b0 b1 ≥ 0 ∧ seg_t a0 a1 b0 b1 ≤ 1 ∧
          seg_u a0 a1 b0 b1 ≥ 0 ∧ seg_u a0 a1 b0 b1 ≤ 1
      · rw [if_pos hc]
        constructor
        · intro h; cases h
        · rintro (h | h | h)
          · exact absurd h hsmall
          · exact absurd ⟨hc.1, hc.2.1⟩ h
          · exact absurd ⟨hc.2.2.1, hc.2.2.2⟩ h
      · rw [if_neg hc]
        constructor
        · intro _
          by_cases ht : 0 ≤ seg_t a0 a1 b0 b1 ∧ seg_t a0 a1 b0 b1 ≤ 1
          · right; right
            intro hu
            exact hc ⟨ht.1, ht.2, hu.1, hu.2⟩
          · right; left; exact ht
        · intro _; rfl
  · intro t u hsmall ht0 ht1 hu0 hu1 hx hy
    have hd : seg_d a0 a1 b0 b1 ≠ 0 := by
      intro h0
      apply hsmall
      rw [h0, abs_zero]
      norm_num
    obtain ⟨et, eu⟩ := seg_params_unique a0 a1 b0 b1 t u hd hx hy
    rw [if_neg hsmall, ← et, ← eu, if_pos ⟨ht0, ht1, hu0, hu1⟩]
  · intro hsmall
    rw [if_pos hsmall]
  · intro h0
    rw [if_pos (by rw [h0, abs_zero]; norm_num)]
  · by_cases hsmall : |seg_d a0 a1 b0 b1| < 1 / 1000000
    · rw [if_pos hsmall]
      exact ⟨fun _ => Or.inl hsmall, fun _ => rfl⟩
    · rw [if_neg hsmall]
      have hd : seg_d a0 a1 b0 b1 ≠ 0 := by
        intro h0
        apply hsmall
        rw [h0, abs_zero]
        norm_num
      by_cases hc : seg_t a0 a1 b0 b1 ≥ 0 ∧ seg_t a0 a1 b0 b1 ≤ 1 ∧
          seg_u a0 a1 b0 b1 ≥ 0 ∧ seg_u a0 a1 b0 b1 ≤ 1
      · rw [if_pos hc]
        constructor
        · intro h; cases h
        · rintro (h | h)
          · exact absurd h hsmall
          · exact absurd ⟨seg_t a0 a1 b0 b1, seg_u a0 a1 b0 b1, hc.1, hc.2.1, hc.2.2.1,
              hc.2.2.2, (seg_params_meet a0 a1 b0 b1 hd).1, (seg_params_meet a0 a1 b0 b1 hd).2⟩ h
      · rw [if_neg hc]
        constructor
        · intro _
          right
          rintro ⟨t, u, ht0, ht1, hu0, hu1, hx, hy⟩
          obtain ⟨et, eu⟩ := seg_params_unique a0 a1 b0 b1 t u hd hx hy
          apply hc
          rw [← et, ← eu]
          exact ⟨ht0, ht1, hu0, hu1⟩
        · intro _; rfl

/-- Instance of `intersect_segs_none_iff`: the diagonals of the square
`[0,2]x[0,2]` have determinant `-8`, share the point of parameters
`t = u = 1/2`, and `intersect_segs` returns that point, `(1, 1)`. -/
theorem intersect_segs_none_iff_witness :
    seg_d diag_a0 diag_a1 diag_b0 diag_b1 = -8 ∧
    intersect_segs diag_a0 diag_a1 diag_b0 diag_b1
      = some { x := diag_a0.x + 1 / 2 * (diag_a1.x - diag_a0.x)
               y := diag_a0.y + 1 / 2 * (diag_a1.y - diag_a0.y) } ∧
    diag_a0.x + 1 / 2 * (diag_a1.x - diag_a0.x) = 1 ∧
    diag_a0.y + 1 / 2 * (diag_a1.y - diag_a0.y) = 1 ∧
    (intersect_segs short_a0 short_a1 short_b0 short_b1 = none ↔
      (|seg_d short_a0 short_a1 short_b0 short_b1| < 1 / 1000000 ∨
        ¬ (0 ≤ seg_t short_a0 short_a1 short_b0 short_b1 ∧
            seg_t short_a0 short_a1 short_b0 short_b1 ≤ 1) ∨
        ¬ (0 ≤ seg_u short_a0 short_a1 short_b0 short_b1 ∧
            seg_u short_a0 short_a1 short_b0 short_b1 ≤ 1))) :=
  ⟨by norm_num [seg_d, diag_a0, diag_a1, diag_b0, diag_b1],
    (intersect_segs_none_iff diag_a0 diag_a1 diag_b0 diag_b1).2.1 (1 / 2) (1 / 2)
      (by norm_num [seg_d, diag_a0, diag_a1, diag_b0, diag_b1, abs_lt])
      (by norm_num) (by norm_num) (by norm_num) (by norm_num)
      (by norm_num [diag_a0, diag_a1, diag_b0, diag_b1])
      (by norm_num [diag_a0, diag_a1, diag_b0, diag_b1]),
    by norm_num [diag_a0, diag_a1],
    by norm_num [diag_a0, diag_a1],
    (intersect_segs_none_iff short_a0 short_a1 short_b0 short_b1).1⟩

theorem point_side_eq_cross (p a b : v2) :
    point_side p a b = cross (v2_sub b a) (v2_sub p a) := by
  unfold point_side cross v2_sub
  simp only
  ring

/-- C12, as stated, fails: the point `(0, 1)` lies strictly to the left of
the directed line from `(0, 0)` to `(1, 0)`, with
`(b - a) x (p - a) = 1 > 0`, and `point_side` is `1` there, not negative. -/
theorem point_side_left_is_positive :
    strictly_left unit_y origin unit_x ∧
    cross (v2_sub unit_x origin) (v2_sub unit_y origin) = 1 ∧
    point_side unit_y origin unit_x = 1 ∧
    ¬ (point_side unit_y origin unit_x < 0) := by
  norm_num [strictly_left, cross, v2_sub, point_side, unit_x, unit_y, origin]

/-- C12 (amended): `point_side(p, a, b)` is the cross product
`(b - a) x (p - a)`, the negative of the cross product of `(p - a)` against
`(b - a)`: it is positive exactly when `p` lies strictly to the left of the
directed line `a -> b`, negative exactly when `p` lies strictly to the
right, and, for `a` different from `b`, zero exactly when `p` is on the line
through `a` and `b`. -/
theorem point_side_sign (p a b : v2) :
    point_side p a b = cross (v2_sub b a) (v2_sub p a) ∧
    point_side p a b = -cross (v2_sub p a) (v2_sub b a) ∧
    (0 < point_side p a b ↔ strictly_left p a b) ∧
    (point_side p a b < 0 ↔ strictly_right p a b) ∧
    ((a.x ≠ b.x ∨ a.y ≠ b.y) → (point_side p a b = 0 ↔ on_line p a b)) := by
  refine ⟨point_side_eq_cross p a b, ?_, ?_, ?_, ?_⟩
  · unfold point_side cross v2_sub
    simp only
  · rw [point_side_eq_cross]; rfl
  · rw [point_side_eq_cross]; rfl
  · intro hab
    unfold point_side on_line
    constructor
    · intro h0
      have hc : (b.x - a.x) * (p.y - a.y) = (b.y - a.y) * (p.x - a.x) := by
        linear_combination h0
      by_cases hx : b.x - a.x = 0
      · have hy : b.y - a.y ≠ 0 := by
          intro hy
          rcases hab with h | h
          · exact h (by linarith)
          · exact h (by linarith)
        refine ⟨(p.y - a.y) / (b.y - a.y), ?_, ?_⟩
        · rw [hx, mul_zero, add_zero]
          rw [hx, zero_mul] at hc
          have := (mul_eq_zero.mp hc.symm).resolve_left hy
          linarith
        · field_simp
      · refine ⟨(p.x - a.x) / (b.x - a.x), ?_, ?_⟩
        · field_simp
        · field_simp
          linear_combination hc
    · rintro ⟨t, hx, hy⟩
      rw [hx, hy]
      ring

/-- C13, as stated, fails: the centre of the square whose walls run
counter-clockwise (sector 1 of `squares`) lies strictly to the left of each
of its four walls, and `point_in_sector` returns false for it; the centre of
the clockwise square (sector 2) lies strictly to the right of each of its
walls, and `point_in_sector` returns true for it. -/
theorem left_side_is_rejected :
    (∀ i, i < 4 →
      strictly_left centre (v2i_to_v2 (squares.walls (0 + i)).a)
        (v2i_to_v2 (squares.walls (0 + i)).b)) ∧
    point_in_sector squares (squares.sectors 1) centre = false ∧
    (∀ i, i < 4 →
      strictly_right centre (v2i_to_v2 (squares.walls (4 + i)).a)
        (v2i_to_v2 (squares.walls (4 + i)).b)) ∧
    point_in_sector squares (squares.sectors 2) centre = true := by
  refine ⟨?_, ?_, ?_, ?_⟩
  · intro i hi
    interval_cases i <;>
      norm_num [strictly_left, cross, v2_sub, squares, centre, v2i_to_v2]
  · norm_num [point_in_sector, point_in_sector_loop, point_side, squares, centre, v2i_to_v2]
  · intro i hi
    interval_cases i <;>
      norm_num [strictly_right, cross, v2_sub, squares, centre, v2i_to_v2]
  · norm_num [point_in_sector, point_in_sector_loop, point_side, squares, centre, v2i_to_v2]

/-- C13 (amended): a wall's inside is its right side: for every sector and
every point `p` that lies strictly on the right side of each of the sector's
walls taken in direction `a -> b` (e.g. the centre of a square whose walls
run clockwise), `point_in_sector` returns true; and it returns false for a
point strictly on the left side of some wall. -/
theorem right_side_is_inside (m : SectorMap) (s : sector) (p : v2) :
    ((∀ i, i < s.nwalls →
        strictly_right p (v2i_to_v2 (m.walls (s.firstwall + i)).a)
          (v2i_to_v2 (m.walls (s.firstwall + i)).b)) →
      point_in_sector m s p = true) ∧
    ((∃ i, i < s.nwalls ∧
        strictly_left p (v2i_to_v2 (m.walls (s.firstwall + i)).a)
          (v2i_to_v2 (m.walls (s.firstwall + i)).b)) →
      point_in_sector m s p = false) ∧
    point_in_sector squares (squares.sectors 2) centre = true ∧
    point_in_sector squares (squares.sectors 1) centre = false := by
  refine ⟨?_, ?_, ?_, ?_⟩
  · intro hright
    apply (point_in_sector_loop_iff m s p s.nwalls 0).mpr
    intro j _ hj
    have h1 := hright j (by omega)
    unfold strictly_right at h1
    rw [← point_side_eq_cross] at h1
    exact le_of_lt h1
  · rintro ⟨i, hi, hleft⟩
    cases hps : point_in_sector m s p with
    | false => rfl
    | true =>
      have h0 := (point_in_sector_loop_iff m s p s.nwalls 0).mp hps i (Nat.zero_le _) (by omega)
      unfold strictly_left at hleft
      rw [← point_side_eq_cross] at hleft
      exact absurd hleft (not_lt.mpr h0)
  · norm_num [point_in_sector, point_in_sector_loop, point_side, squares, centre, v2i_to_v2]
  · norm_num [point_in_sector, point_in_sector_loop, point_side, squares, centre, v2i_to_v2]

theorem HFOV_eq : HFOV = Real.pi / 2 := by
  unfold HFOV DEG2RAD PI
  ring

theorem screen_arg_eq (angle : ℝ) : ((angle + (HFOV / 2)) / HFOV) * PI_2 - PI_4 = angle := by
  rw [HFOV_eq]
  unfold PI_2 PI_4 PI
  have hpi : Real.pi ≠ 0 := Real.pi_ne_zero
  field_simp
  ring

theorem screen_angle_to_x_eq (angle : ℝ) :
    screen_angle_to_x angle = to_int (192 * (1 - Real.tan angle)) := by
  unfold screen_angle_to_x
  rw [screen_arg_eq]
  have h : ((SCREEN_WIDTH / 2 : Int) : ℝ) = 192 := by
    have : (SCREEN_WIDTH / 2 : Int) = 192 := by decide
    rw [this]
    norm_num
  rw [h]

theorem to_int_mono (x y : ℝ) (h : x ≤ y) : to_int x ≤ to_int y := by
  unfold to_int
  by_cases hx : 0 ≤ x
  · rw [if_pos hx, if_pos (le_trans hx h)]
    exact Int.floor_mono h
  · rw [if_neg hx]
    by_cases hy : 0 ≤ y
    · rw [if_pos hy]
      have h1 : Int.ceil x ≤ 0 := Int.ceil_le.mpr (by push_cast; linarith)
      have h2 : (0 : Int) ≤ Int.floor y := Int.floor_nonneg.mpr hy
      exact le_trans h1 h2
    · rw [if_neg hy]
      exact Int.ceil_mono h

theorem to_int_intCast (k : Int) : to_int (k : ℝ) = k := by
  unfold to_int
  split_ifs
  · exact Int.floor_intCast k
  · exact Int.ceil_intCast k

theorem tan_mono_fov (a b : ℝ) (ha : -(Real.pi / 4) ≤ a) (hab : a ≤ b) (hb : b ≤ Real.pi / 4) :
    Real.tan a ≤ Real.tan b := by
  have hpi := Real.pi_pos
  apply Real.strictMonoOn_tan.monotoneOn _ _ hab
  · constructor <;> linarith
  · constructor <;> linarith

theorem half_fov_eq : HFOV / 2 = Real.pi / 4 := by
  rw [HFOV_eq]; ring

theorem screen_x_at_minus_half_fov : screen_angle_to_x (-(HFOV / 2)) = 384 := by
  rw [screen_angle_to_x_eq, half_fov_eq, Real.tan_neg, Real.tan_pi_div_four]
  have h : (192 : ℝ) * (1 - -1) = ((384 : Int) : ℝ) := by norm_num
  rw [h, to_int_intCast]

theorem screen_x_at_half_fov : screen_angle_to_x (HFOV / 2) = 0 := by
  rw [screen_angle_to_x_eq, half_fov_eq, Real.tan_pi_div_four]
  have h : (192 : ℝ) * (1 - 1) = ((0 : Int) : ℝ) := by norm_num
  rw [h, to_int_intCast]

/-- C14, as stated, fails: `screen_angle_to_x` maps `-HFOV/2` to 384, which
is neither column 0 nor a column of `[0, SCREEN_WIDTH-1]`, and maps
`+HFOV/2` to column 0, not to `SCREEN_WIDTH-1`. -/
theorem screen_edges_swapped :
    screen_angle_to_x (-(HFOV / 2)) = 384 ∧
    ¬ (screen_angle_to_x (-(HFOV / 2)) ≤ SCREEN_WIDTH - 1) ∧
    screen_angle_to_x (HFOV / 2) = 0 ∧
    screen_angle_to_x (HFOV / 2) ≠ SCREEN_WIDTH - 1 := by
  rw [screen_x_at_minus_half_fov, screen_x_at_half_fov]
  decide

/-- C14 (amended): `screen_angle_to_x` maps the angle `+HFOV/2` to column 0
and the angle `-HFOV/2` to `SCREEN_WIDTH` (one past the last column); every
angle in `[-HFOV/2, +HFOV/2]` maps to a value in `[0, SCREEN_WIDTH]`, and
every angle of that range other than `-HFOV/2` to a column in
`[0, SCREEN_WIDTH-1]`. -/
theorem screen_angle_to_x_range :
    screen_angle_to_x (HFOV / 2) = 0 ∧
    screen_angle_to_x (-(HFOV / 2)) = SCREEN_WIDTH ∧
    (∀ angle : ℝ, -(HFOV / 2) ≤ angle → angle ≤ HFOV / 2 →
      0 ≤ screen_angle_to_x angle ∧ screen_angle_to_x angle ≤ SCREEN_WIDTH) ∧
    (∀ angle : ℝ, -(HFOV / 2) < angle → angle ≤ HFOV / 2 →
      0 ≤ screen_angle_to_x angle ∧ screen_angle_to_x angle ≤ SCREEN_WIDTH - 1) := by
  have hpi := Real.pi_pos
  have lower : ∀ angle : ℝ, -(HFOV / 2) ≤ angle → angle ≤ HFOV / 2 →
      0 ≤ screen_angle_to_x angle := by
    intro angle h1 h2
    rw [← screen_x_at_half_fov, screen_angle_to_x_eq, screen_angle_to_x_eq]
    apply to_int_mono
    rw [half_fov_eq] at h1 h2 ⊢
    have := tan_mono_fov angle (Real.pi / 4) h1 h2 (le_refl _)
    linarith
  refine ⟨screen_x_at_half_fov, screen_x_at_minus_half_fov, ?_, ?_⟩
  · intro angle h1 h2
    refine ⟨lower angle h1 h2, ?_⟩
    have e : SCREEN_WIDTH = screen_angle_to_x (-(HFOV / 2)) := by
      rw [screen_x_at_minus_half_fov]; rfl
    rw [e, screen_angle_to_x_eq, screen_angle_to_x_eq]
    apply to_int_mono
    rw [half_fov_eq] at h1 h2 ⊢
    have := tan_mono_fov (-(Real.pi / 4)) angle (le_refl _) h1 h2
    linarith
  · intro angle h1 h2
    refine ⟨lower angle (le_of_lt h1) h2, ?_⟩
    rw [half_fov_eq] at h1 h2
    have hlt : Real.tan (-(Real.pi / 4)) < Real.tan angle := by
      apply Real.strictMonoOn_tan _ _ h1
      · constructor <;> linarith
      · constructor <;> linarith
    rw [Real.tan_neg, Real.tan_pi_div_four] at hlt
    have hle := tan_mono_fov angle (Real.pi / 4) (le_of_lt h1) h2 (le_refl _)
    rw [Real.tan_pi_div_four] at hle
    rw [screen_angle_to_x_eq]
    unfold to_int
    rw [if_pos (by linarith)]
    have : Int.floor (192 * (1 - Real.tan angle)) < 384 := by
      rw [Int.floor_lt]
      push_cast
      linarith
    unfold SCREEN_WIDTH
    omega

/-- C15: `screen_angle_to_x` is monotonic with larger angle giving smaller
column: for all angles `a <= b` in `[-HFOV/2, +HFOV/2]`,
`screen_angle_to_x(a) >= screen_angle_to_x(b)`, the result being the
truncation of `(SCREEN_WIDTH/2) * (1 - tan(((angle + HFOV/2)/HFOV) * (pi/2) - pi/4))`. -/
theorem screen_angle_to_x_antitone (a b : ℝ)
    (ha : -(HFOV / 2) ≤ a) (hab : a ≤ b) (hb : b ≤ HFOV / 2) :
    screen_angle_to_x a ≥ screen_angle_to_x b ∧
    screen_angle_to_x a =
      to_int (192 * (1 - Real.tan (((a + HFOV / 2) / HFOV) * (Real.pi / 2) - Real.pi / 4))) ∧
    screen_angle_to_x b =
      to_int (192 * (1 - Real.tan (((b + HFOV / 2) / HFOV) * (Real.pi / 2) - Real.pi / 4))) := by
  have form : ∀ x : ℝ, screen_angle_to_x x =
      to_int (192 * (1 - Real.tan (((x + HFOV / 2) / HFOV) * (Real.pi / 2) - Real.pi / 4))) := by
    intro x
    have e := screen_arg_eq x
    unfold PI_2 PI_4 PI at e
    rw [e, screen_angle_to_x_eq]
  refine ⟨?_, form a, form b⟩
  rw [ge_iff_le, screen_angle_to_x_eq, screen_angle_to_x_eq]
  apply to_int_mono
  rw [half_fov_eq] at ha hb
  have := tan_mono_fov a b ha hab hb
  linarith

/-- Instance of `screen_angle_to_x_antitone`: the two ends of the field of
view. -/
theorem screen_angle_to_x_antitone_witness :
    -(HFOV / 2) ≤ -(HFOV / 2) ∧ -(HFOV / 2) ≤ HFOV / 2 ∧ HFOV / 2 ≤ HFOV / 2 ∧
    (screen_angle_to_x (-(HFOV / 2)) ≥ screen_angle_to_x (HFOV / 2) ∧
    screen_angle_to_x (-(HFOV / 2)) =
      to_int (192 * (1 - Real.tan (((-(HFOV / 2) + HFOV / 2) / HFOV) * (Real.pi / 2)
        - Real.pi / 4))) ∧
    screen_angle_to_x (HFOV / 2) =
      to_int (192 * (1 - Real.tan (((HFOV / 2 + HFOV / 2) / HFOV) * (Real.pi / 2)
        - Real.pi / 4)))) :=
  have h : -(HFOV / 2) ≤ HFOV / 2 := by
    rw [half_fov_eq]
    linarith [Real.pi_pos]
  ⟨le_refl _, h, le_refl _,
    screen_angle_to_x_antitone (-(HFOV / 2)) (HFOV / 2) (le_refl _) h (le_refl _)⟩

/-- C16, as stated, fails: `normalize_angle(pi)` is `-pi`, which is not in
the interval `(-pi, pi]`. -/
theorem normalize_angle_at_pi :
    normalize_angle PI = -PI ∧ ¬ (-PI < normalize_angle PI) := by
  have h : normalize_angle PI = -PI := by
    unfold normalize_angle TAU PI
    have e : (Real.pi + Real.pi) / (2 * Real.pi) = ((1 : Int) : ℝ) := by
      have hpi : Real.pi ≠ 0 := Real.pi_ne_zero
      field_simp
      ring
    rw [e, Int.floor_intCast]
    push_cast
    ring
  refine ⟨h, ?_⟩
  rw [h]
  exact lt_irrefl _

/-- C16 (amended): `normalize_angle` wraps any angle into the half-open
interval `[-pi, pi)`: for every real `a`, the result
`r = a - 2*pi*floor((a + pi)/(2*pi))` satisfies `-pi <= r < pi` and differs
from `a` by an integer multiple of `2*pi`. -/
theorem normalize_angle_range (a : ℝ) :
    normalize_angle a = a - 2 * Real.pi * (Int.floor ((a + Real.pi) / (2 * Real.pi)) : ℝ) ∧
    -Real.pi ≤ normalize_angle a ∧ normalize_angle a < Real.pi ∧
    ∃ k : Int, a - normalize_angle a = (k : ℝ) * (2 * Real.pi) := by
  have hpi := Real.pi_pos
  have h2 : (0 : ℝ) < 2 * Real.pi := by linarith
  have form : normalize_angle a
      = a - 2 * Real.pi * (Int.floor ((a + Real.pi) / (2 * Real.pi)) : ℝ) := by
    unfold normalize_angle TAU PI
    rfl
  have hfl := Int.floor_le ((a + Real.pi) / (2 * Real.pi))
  have hlt := Int.lt_floor_add_one ((a + Real.pi) / (2 * Real.pi))
  rw [le_div_iff₀ h2] at hfl
  rw [div_lt_iff₀ h2] at hlt
  refine ⟨form, ?_, ?_, Int.floor ((a + Real.pi) / (2 * Real.pi)), ?_⟩
  · rw [form]; linarith
  · rw [form]; linarith
  · rw [form]; ring

/-- C17: for a camera with `anglecos = c`, `anglesin = s`, `c^2 + s^2 = 1`,
`world_pos_to_camera` maps the world point `pos + d*(c, s)` to the
camera-space point `(0, d)`, in particular the position reached by the
forward key to `(0, move_speed)`; and it preserves the squared distance from
the camera for every world point. -/
theorem forward_axis_is_plus_y (cam : camera) (d : ℚ)
    (h : cam.anglecos ^ 2 + cam.anglesin ^ 2 = 1) :
    world_pos_to_camera cam
        { x := cam.pos.x + d * cam.anglecos, y := cam.pos.y + d * cam.anglesin }
      = { x := 0, y := d } ∧
    world_pos_to_camera cam (move_forward cam).pos = { x := 0, y := move_speed } ∧
    ∀ p : v2,
      (world_pos_to_camera cam p).x ^ 2 + (world_pos_to_camera cam p).y ^ 2
        = (p.x - cam.pos.x) ^ 2 + (p.y - cam.pos.y) ^ 2 := by
  have key : ∀ e : ℚ, world_pos_to_camera cam
      { x := cam.pos.x + e * cam.anglecos, y := cam.pos.y + e * cam.anglesin }
        = { x := 0, y := e } := by
    intro e
    unfold world_pos_to_camera
    simp only [v2.mk.injEq]
    constructor
    · ring
    · linear_combination e * h
  refine ⟨key d, key move_speed, ?_⟩
  intro p
  unfold world_pos_to_camera
  simp only
  linear_combination ((p.x - cam.pos.x) ^ 2 + (p.y - cam.pos.y) ^ 2) * h

/-- Instance of `forward_axis_is_plus_y`: the camera `tilted_camera` and the
distance 5. -/
theorem forward_axis_is_plus_y_witness :
    tilted_camera.anglecos ^ 2 + tilted_camera.anglesin ^ 2 = 1 ∧
    (world_pos_to_camera tilted_camera
        { x := tilted_camera.pos.x + 5 * tilted_camera.anglecos,
          y := tilted_camera.pos.y + 5 * tilted_camera.anglesin }
      = { x := 0, y := 5 } ∧
    world_pos_to_camera tilted_camera (move_forward tilted_camera).pos
      = { x := 0, y := move_speed } ∧
    ∀ p : v2,
      (world_pos_to_camera tilted_camera p).x ^ 2 + (world_pos_to_camera tilted_camera p).y ^ 2
        = (p.x - tilted_camera.pos.x) ^ 2 + (p.y - tilted_camera.pos.y) ^ 2) :=
  have h : tilted_camera.anglecos ^ 2 + tilted_camera.anglesin ^ 2 = 1 := by
    norm_num [tilted_camera]
  ⟨h, forward_axis_is_plus_y tilted_camera 5 h⟩

/-- C18, as stated, fails: in the full-width window `(1, 0, 383)` the portal
wall of room 1 of `two_rooms`, with true columns `tx0 = 300`, `tx1 = 100`,
passes both window tests and is pushed as `(2, 300, 100)`, an entry with
`x0 > x1`. -/
theorem empty_span_is_pushed :
    (300 : Int) ≤ first_entry.x1 ∧ (100 : Int) ≥ first_entry.x0 ∧
    ∃ s1, wall_body two_rooms crossed_view first_entry (two_rooms.sectors 1) 2 first_popped
        = Except.ok s1 ∧
      s1.n = 1 ∧ (s1.arr 0).id = 2 ∧ (s1.arr 0).x0 = 300 ∧ (s1.arr 0).x1 = 100 ∧
      ¬ ((s1.arr 0).x0 ≤ (s1.arr 0).x1) := by
  refine ⟨by decide, by decide, _, rfl, ?_⟩
  decide

/-- C18 (amended): for every entry `(id, e0, e1)` with `e0 <= e1` and every
portal wall that reaches the push with true columns `tx0`, `tx1` (having
passed `tx0 <= e1` and `tx1 >= e0`) while the work list is not full, the
entry `(wall.portal, x0, x1)` is pushed, with `x0`, `x1` the clamped
columns, `e0 <= x0 <= e1` and `e0 <= x1 <= e1`; and `x0 <= x1` holds when
`tx0 <= tx1`. -/
theorem pushed_entry_in_window (m : SectorMap) (view : Int → Nat → Option WallView)
    (entry : queue_entry) (sec : sector) (i : Nat) (s : RenderState) (v : WallView)
    (he : entry.x0 ≤ entry.x1)
    (hv : view entry.id (sec.firstwall + i) = some v)
    (h0 : v.tx0 ≤ entry.x1) (h1 : v.tx1 ≥ entry.x0)
    (hp : (m.walls (sec.firstwall + i)).portal ≠ 0)
    (hn : s.n ≠ QUEUE_MAX) :
    ∃ s1, wall_body m view entry sec i s = Except.ok s1 ∧ s1.n = s.n + 1 ∧
      s1.arr s.n =
        { id := (m.walls (sec.firstwall + i)).portal
          x0 := clamp v.tx0 entry.x0 entry.x1
          x1 := clamp v.tx1 entry.x0 entry.x1 } ∧
      entry.x0 ≤ (s1.arr s.n).x0 ∧ (s1.arr s.n).x0 ≤ entry.x1 ∧
      entry.x0 ≤ (s1.arr s.n).x1 ∧ (s1.arr s.n).x1 ≤ entry.x1 ∧
      (v.tx0 ≤ v.tx1 → (s1.arr s.n).x0 ≤ (s1.arr s.n).x1) := by
  have m0 := clamp_mem v.tx0 entry.x0 entry.x1 he
  have m1 := clamp_mem v.tx1 entry.x0 entry.x1 he
  unfold wall_body
  rw [hv]
  simp only
  rw [if_neg (not_lt.mpr h0), if_neg (not_lt.mpr h1), if_pos hp, if_neg hn]
  refine ⟨_, rfl, rfl, ?_, ?_, ?_, ?_, ?_, ?_⟩
  · exact Function.update_same _ _ _
  · simp only [queue_push, Function.update_same]; exact m0.1
  · simp only [queue_push, Function.update_same]; exact m0.2
  · simp only [queue_push, Function.update_same]; exact m1.1
  · simp only [queue_push, Function.update_same]; exact m1.2
  · simp only [queue_push, Function.update_same]
    intro h
    exact clamp_mono _ _ _ _ h

/-- Instance of `pushed_entry_in_window`: the portal wall of room 1 of
`two_rooms` with true columns `tx0 = 100`, `tx1 = 300` in the full-width
window. -/
theorem pushed_entry_in_window_witness :
    first_entry.x0 ≤ first_entry.x1 ∧
    plain_view first_entry.id ((two_rooms.sectors 1).firstwall + 2)
      = some (const_view 100 300 0 0 0 0 0) ∧
    (const_view 100 300 0 0 0 0 0).tx0 ≤ first_entry.x1 ∧
    (const_view 100 300 0 0 0 0 0).tx1 ≥ first_entry.x0 ∧
    (two_rooms.walls ((two_rooms.sectors 1).firstwall + 2)).portal ≠ 0 ∧
    first_popped.n ≠ QUEUE_MAX ∧
    ∃ s1, wall_body two_rooms plain_view first_entry (two_rooms.sectors 1) 2 first_popped
        = Except.ok s1 ∧ s1.n = first_popped.n + 1 ∧
      s1.arr first_popped.n =
        { id := (two_rooms.walls ((two_rooms.sectors 1).firstwall + 2)).portal
          x0 := clamp (const_view 100 300 0 0 0 0 0).tx0 first_entry.x0 first_entry.x1
          x1 := clamp (const_view 100 300 0 0 0 0 0).tx1 first_entry.x0 first_entry.x1 } ∧
      first_entry.x0 ≤ (s1.arr first_popped.n).x0 ∧
      (s1.arr first_popped.n).x0 ≤ first_entry.x1 ∧
      first_entry.x0 ≤ (s1.arr first_popped.n).x1 ∧
      (s1.arr first_popped.n).x1 ≤ first_entry.x1 ∧
      ((const_view 100 300 0 0 0 0 0).tx0 ≤ (const_view 100 300 0 0 0 0 0).tx1 →
        (s1.arr first_popped.n).x0 ≤ (s1.arr first_popped.n).x1) :=
  ⟨by decide, rfl, by decide, by decide, by decide, by decide,
    pushed_entry_in_window two_rooms plain_view first_entry (two_rooms.sectors 1) 2
      first_popped (const_view 100 300 0 0 0 0 0) (by decide) rfl (by decide) (by decide)
      (by decide) (by decide)⟩

theorem pixel_index_inj (r y x : Int) :
    r * SCREEN_WIDTH + x = y * SCREEN_WIDTH + x ↔ r = y := by
  unfold SCREEN_WIDTH
  constructor
  · intro h; omega
  · intro h; rw [h]

/-- The pixel of row `r` in column `x` after the loop of `verline`. -/
theorem verline_loop_apply (x : Int) (c : Nat) :
    ∀ (k : Nat) (y : Int) (px : Int → Nat) (r : Int),
    verline_loop x c k y px (r * SCREEN_WIDTH + x) =
      if y ≤ r ∧ r < y + k then c else px (r * SCREEN_WIDTH + x) := by
  intro k
  induction k with
  | zero =>
    intro y px r
    have : ¬ (y ≤ r ∧ r < y + ((0 : Nat) : Int)) := by push_cast; omega
    rw [if_neg this]
    rfl
  | succ k ih =>
    intro y px r
    unfold verline_loop
    rw [ih (y + 1) _ r]
    by_cases h1 : y + 1 ≤ r ∧ r < y + 1 + (k : Int)
    · rw [if_pos h1, if_pos (by push_cast; omega)]
    · rw [if_neg h1]
      by_cases h2 : r = y
      · subst h2
        rw [Function.update_same, if_pos (by push_cast; omega)]
      · rw [Function.update_noteq (fun h => h2 ((pixel_index_inj r y x).mp h)),
          if_neg (by push_cast; omega)]

/-- The pixel of row `r` in column `x` after `verline`. -/
theorem verline_apply (s : State) (x y0 y1 : Int) (c : Nat) (r : Int) :
    (verline s x y0 y1 c).pixels (r * SCREEN_WIDTH + x) =
      if y0 ≤ r ∧ r ≤ y1 then c else s.pixels (r * SCREEN_WIDTH + x) := by
  unfold verline
  simp only
  rw [verline_loop_apply]
  by_cases h : y0 ≤ r ∧ r ≤ y1
  · rw [if_pos h, if_pos (by omega)]
  · rw [if_neg h, if_neg (by omega)]

/-- The pixel of row `r` in column `x` after a guarded call of `verline`. -/
theorem guarded_verline_apply (b : Prop) [Decidable b] (s : State) (x y0 y1 : Int) (c : Nat)
    (r : Int) :
    (if b then verline s x y0 y1 c else s).pixels (r * SCREEN_WIDTH + x) =
      if b ∧ y0 ≤ r ∧ r ≤ y1 then c else s.pixels (r * SCREEN_WIDTH + x) := by
  by_cases hb : b
  · rw [if_pos hb, verline_apply]
    by_cases h : y0 ≤ r ∧ r ≤ y1
    · rw [if_pos h, if_pos ⟨hb, h⟩]
    · rw [if_neg h, if_neg (fun h2 => h h2.2)]
  · rw [if_neg hb, if_neg (fun h2 => hb h2.1)]

/-- The pixel of row `r` in column `x` after the draw of column `x` for a
solid wall. -/
theorem draw_column_solid_apply (s : State) (x0 x1 : Int) (v : WallView) (x r : Int) :
    (draw_column s 0 x0 x1 v x).pixels (r * SCREEN_WIDTH + x) =
      if clamp (v.tyf x) (s.y_lo x) (s.y_hi x) ≤ r ∧ r ≤ clamp (v.tyc x) (s.y_lo x) (s.y_hi x)
      then wall_colour (shade x x0 x1 v.wallshade)
      else if clamp (v.tyc x) (s.y_lo x) (s.y_hi x) < (s.y_hi x : Int) ∧
          clamp (v.tyc x) (s.y_lo x) (s.y_hi x) ≤ r ∧ r ≤ s.y_hi x
      then ceiling_colour
      else if clamp (v.tyf x) (s.y_lo x) (s.y_hi x) > (s.y_lo x : Int) ∧
          (s.y_lo x : Int) ≤ r ∧ r ≤ clamp (v.tyf x) (s.y_lo x) (s.y_hi x)
      then floor_colour
      else s.pixels (r * SCREEN_WIDTH + x) := by
  unfold draw_column
  simp only [ne_eq, not_true_eq_false, if_false]
  rw [verline_apply, guarded_verline_apply, guarded_verline_apply]
  rfl

/-- C19: for a column `x` drawn for a solid wall with `y_lo[x] <= y_hi[x]`
and arbitrary interpolated rows, after the draw every row of
`[y_lo[x], y_hi[x]]` holds the floor colour, the wall colour of the column
or the ceiling colour, whatever the pixel held before; and when the clamped
rows satisfy `yf <= yc`, the rows below `yf` hold the floor colour, the rows
`yf..yc` the one wall colour `abgr_mul(0xFFD0D0D0, shade)`, and the rows
above `yc` the ceiling colour. -/
theorem solid_wall_fills_column (s : State) (x0 x1 : Int) (v : WallView) (x : Int)
    (hle : (s.y_lo x : Int) ≤ s.y_hi x) (r : Int)
    (hr0 : (s.y_lo x : Int) ≤ r) (hr1 : r ≤ s.y_hi x) :
    ((draw_column s 0 x0 x1 v x).pixels (r * SCREEN_WIDTH + x) = floor_colour ∨
      (draw_column s 0 x0 x1 v x).pixels (r * SCREEN_WIDTH + x)
        = wall_colour (shade x x0 x1 v.wallshade) ∨
      (draw_column s 0 x0 x1 v x).pixels (r * SCREEN_WIDTH + x) = ceiling_colour) ∧
    (clamp (v.tyf x) (s.y_lo x) (s.y_hi x) ≤ clamp (v.tyc x) (s.y_lo x) (s.y_hi x) →
      (r < clamp (v.tyf x) (s.y_lo x) (s.y_hi x) →
        (draw_column s 0 x0 x1 v x).pixels (r * SCREEN_WIDTH + x) = floor_colour) ∧
      (clamp (v.tyf x) (s.y_lo x) (s.y_hi x) ≤ r →
        r ≤ clamp (v.tyc x) (s.y_lo x) (s.y_hi x) →
        (draw_column s 0 x0 x1 v x).pixels (r * SCREEN_WIDTH + x)
          = wall_colour (shade x x0 x1 v.wallshade)) ∧
      (clamp (v.tyc x) (s.y_lo x) (s.y_hi x) < r →
        (draw_column s 0 x0 x1 v x).pixels (r * SCREEN_WIDTH + x) = ceiling_colour)) := by
  rw [draw_column_solid_apply]
  have mf := clamp_mem (v.tyf x) (s.y_lo x) (s.y_hi x) hle
  have mc := clamp_mem (v.tyc x) (s.y_lo x) (s.y_hi x) hle
  generalize clamp (v.tyf x) (s.y_lo x) (s.y_hi x) = yf at mf ⊢
  generalize clamp (v.tyc x) (s.y_lo x) (s.y_hi x) = yc at mc ⊢
  by_cases hw : yf ≤ r ∧ r ≤ yc
  · rw [if_pos hw]
    refine ⟨Or.inr (Or.inl rfl), ?_⟩
    intro _
    exact ⟨fun h => absurd hw.1 (not_le.mpr h), fun _ _ => rfl,
      fun h => absurd hw.2 (not_le.mpr h)⟩
  · rw [if_neg hw]
    by_cases hc : yc < (s.y_hi x : Int) ∧ yc ≤ r ∧ r ≤ s.y_hi x
    · rw [if_pos hc]
      refine ⟨Or.inr (Or.inr rfl), ?_⟩
      intro hord
      refine ⟨fun h => ?_, fun h1 h2 => absurd ⟨h1, h2⟩ hw, fun _ => rfl⟩
      omega
    · rw [if_neg hc]
      have hf : yf > (s.y_lo x : Int) ∧ (s.y_lo x : Int) ≤ r ∧ r ≤ yf := by
        by_contra hn
        apply hn
        by_cases h1 : r < yf
        · exact ⟨by omega, hr0, by omega⟩
        · exfalso
          apply hc
          have h2 : yc < r := by
            by_contra h3
            exact hw ⟨by omega, by omega⟩
          exact ⟨by omega, by omega, hr1⟩
      rw [if_pos hf]
      refine ⟨Or.inl rfl, ?_⟩
      intro hord
      refine ⟨fun _ => rfl, fun h1 h2 => absurd ⟨h1, h2⟩ hw, fun h => ?_⟩
      exfalso
      apply hc
      exact ⟨by omega, by omega, hr1⟩

/-- Instance of `solid_wall_fills_column`: row 100 of column 5 after the
draw of the solid wall `solid_view` on the reset buffers. -/
theorem solid_wall_fills_column_witness :
    ((reset_bounds blank).y_lo 5 : Int) ≤ (reset_bounds blank).y_hi 5 ∧
    ((reset_bounds blank).y_lo 5 : Int) ≤ 100 ∧ (100 : Int) ≤ (reset_bounds blank).y_hi 5 ∧
    (((draw_column (reset_bounds blank) 0 5 5 solid_view 5).pixels (100 * SCREEN_WIDTH + 5)
        = floor_colour ∨
      (draw_column (reset_bounds blank) 0 5 5 solid_view 5).pixels (100 * SCREEN_WIDTH + 5)
        = wall_colour (shade 5 5 5 solid_view.wallshade) ∨
      (draw_column (reset_bounds blank) 0 5 5 solid_view 5).pixels (100 * SCREEN_WIDTH + 5)
        = ceiling_colour) ∧
    (clamp (solid_view.tyf 5) ((reset_bounds blank).y_lo 5) ((reset_bounds blank).y_hi 5)
        ≤ clamp (solid_view.tyc 5) ((reset_bounds blank).y_lo 5) ((reset_bounds blank).y_hi 5) →
      (100 < clamp (solid_view.tyf 5) ((reset_bounds blank).y_lo 5)
          ((reset_bounds blank).y_hi 5) →
        (draw_column (reset_bounds blank) 0 5 5 solid_view 5).pixels (100 * SCREEN_WIDTH + 5)
          = floor_colour) ∧
      (clamp (solid_view.tyf 5) ((reset_bounds blank).y_lo 5) ((reset_bounds blank).y_hi 5)
          ≤ 100 →
        100 ≤ clamp (solid_view.tyc 5) ((reset_bounds blank).y_lo 5)
          ((reset_bounds blank).y_hi 5) →
        (draw_column (reset_bounds blank) 0 5 5 solid_view 5).pixels (100 * SCREEN_WIDTH + 5)
          = wall_colour (shade 5 5 5 solid_view.wallshade)) ∧
      (clamp (solid_view.tyc 5) ((reset_bounds blank).y_lo 5) ((reset_bounds blank).y_hi 5)
          < 100 →
        (draw_column (reset_bounds blank) 0 5 5 solid_view 5).pixels (100 * SCREEN_WIDTH + 5)
          = ceiling_colour))) :=
  ⟨by decide, by decide, by decide,
    solid_wall_fills_column (reset_bounds blank) 5 5 solid_view 5 (by decide) 100
      (by decide) (by decide)⟩

theorem atan2_zero_right (y : ℝ) :
    atan2 y 0 = if 0 < y then Real.pi / 2 else if y < 0 then -(Real.pi / 2) else 0 := by
  unfold atan2
  rw [if_neg (lt_irrefl 0), if_neg (lt_irrefl 0)]

/-- The value of `wallshade` depends on the sign of `b.x - a.x` only. -/
theorem wallshade_eq (w : wall) :
    wallshade w = if 0 < w.b.x - w.a.x then 32 else if w.b.x - w.a.x < 0 then 0 else 16 := by
  unfold wallshade
  rw [sub_self, Int.cast_zero, atan2_zero_right]
  by_cases hpos : 0 < w.b.x - w.a.x
  · have h : (0 : ℝ) < ((w.b.x - w.a.x : Int) : ℝ) := by exact_mod_cast hpos
    rw [if_pos h, if_pos hpos, Real.sin_pi_div_two]
    have e : (16 : ℝ) * (1 + 1) = ((32 : Int) : ℝ) := by norm_num
    rw [e, to_int_intCast]
  · have h : ¬ (0 : ℝ) < ((w.b.x - w.a.x : Int) : ℝ) := by
      intro hc; exact hpos (by exact_mod_cast hc)
    rw [if_neg h, if_neg hpos]
    by_cases hneg : w.b.x - w.a.x < 0
    · have h2 : ((w.b.x - w.a.x : Int) : ℝ) < 0 := by exact_mod_cast hneg
      rw [if_pos h2, if_pos hneg, Real.sin_neg, Real.sin_pi_div_two]
      have e : (16 : ℝ) * (-1 + 1) = ((0 : Int) : ℝ) := by norm_num
      rw [e, to_int_intCast]
    · have h2 : ¬ ((w.b.x - w.a.x : Int) : ℝ) < 0 := by
        intro hc; exact hneg (by exact_mod_cast hc)
      rw [if_neg h2, if_neg hneg, Real.sin_zero]
      have e : (16 : ℝ) * (0 + 1) = ((16 : Int) : ℝ) := by norm_num
      rw [e, to_int_intCast]

theorem orientation_shade_diag : orientation_shade diag_wall = 27 := by
  unfold orientation_shade diag_wall atan2
  have e4 : (((4 : Int) - 0 : Int) : ℝ) = 4 := by norm_num
  simp only [e4]
  rw [if_pos (by norm_num), div_self (by norm_num), Real.arctan_one, Real.sin_pi_div_four]
  have hlo : (11 / 8 : ℝ) ≤ Real.sqrt 2 := Real.le_sqrt_of_sq_le (by norm_num)
  have hhi : Real.sqrt 2 < 3 / 2 := by
    rw [Real.sqrt_lt' (by norm_num)]
    norm_num
  unfold to_int
  rw [if_pos (by linarith)]
  rw [Int.floor_eq_iff]
  constructor
  · push_cast; linarith
  · push_cast; linarith

/-- C20 fails on the code: `wallshade` is computed from
`atan2f(b.x - a.x, b.y - b.y)`, whose second argument is always 0, so it is
32, 0 or 16 by the sign of `b.x - a.x` alone. The walls `flat_wall` and
`diag_wall`, with the same `b.x - a.x = 4` and different `b.y - a.y`, both
get the interior shade `255 - 32 = 223`, while the shade computed from the
full direction vector of `diag_wall` is `255 - 27 = 228`. The edge columns
do use the shade 192. -/
theorem wallshade_ignores_dy :
    wallshade flat_wall = 32 ∧ wallshade diag_wall = 32 ∧
    shade 7 5 9 (wallshade flat_wall) = 223 ∧ shade 7 5 9 (wallshade diag_wall) = 223 ∧
    orientation_shade diag_wall = 27 ∧
    shade 7 5 9 (orientation_shade diag_wall) = 228 ∧
    (∀ w1 w2 : wall, w1.b.x - w1.a.x = w2.b.x - w2.a.x → wallshade w1 = wallshade w2) ∧
    (∀ x0 x1 ws : Int, shade x0 x0 x1 ws = 192 ∧ shade x1 x0 x1 ws = 192) ∧
    (∀ x x0 x1 ws : Int, x ≠ x0 → x ≠ x1 → shade x x0 x1 ws = 255 - ws) := by
  have hf : wallshade flat_wall = 32 := by rw [wallshade_eq]; decide
  have hd : wallshade diag_wall = 32 := by rw [wallshade_eq]; decide
  refine ⟨hf, hd, ?_, ?_, orientation_shade_diag, ?_, ?_, ?_, ?_⟩
  · rw [hf]; decide
  · rw [hd]; decide
  · rw [orientation_shade_diag]; decide
  · intro w1 w2 h
    rw [wallshade_eq, wallshade_eq, h]
  · intro x0 x1 ws
    unfold shade
    exact ⟨if_pos (Or.inl rfl), if_pos (Or.inr rfl)⟩
  · intro x x0 x1 ws h0 h1
    unfold shade
    rw [if_neg]
    rintro (h | h)
    · exact h0 h
    · exact h1 h

/-- Masking with a mask shifted left by `i` bits acts on the bits of `x`
from bit `i` on. -/
theorem and_two_pow_mul (x m i : Nat) : x &&& (2 ^ i * m) = 2 ^ i * ((x >>> i) &&& m) := by
  apply Nat.eq_of_testBit_eq
  intro j
  rw [Nat.testBit_and, Nat.testBit_mul_pow_two, Nat.testBit_mul_pow_two, Nat.testBit_and,
    Nat.testBit_shiftRight]
  by_cases h : i ≤ j
  · have e : i + (j - i) = j := by omega
    simp [h, e]
  · simp [h]

/-- The mask `0xFF00FF` keeps the low byte and the third byte. -/
theorem and_mask_rb (x : Nat) : x &&& 0xFF00FF = 65536 * (x / 65536 % 256) + x % 256 := by
  have hm : (0xFF00FF : Nat) = 2 ^ 16 * (2 ^ 8 - 1) ||| (2 ^ 8 - 1) := by decide
  rw [hm, Nat.and_or_distrib_left, and_two_pow_mul, Nat.and_pow_two_sub_one_eq_mod,
    Nat.and_pow_two_sub_one_eq_mod, Nat.shiftRight_eq_div_pow]
  have hlt : x % 2 ^ 8 < 2 ^ 16 := by omega
  rw [← Nat.mul_add_lt_is_or hlt]
  norm_num

/-- The mask `0x00FF00` keeps the second byte. -/
theorem and_mask_g (x : Nat) : x &&& 0x00FF00 = 256 * (x / 256 % 256) := by
  have hm : (0x00FF00 : Nat) = 2 ^ 8 * (2 ^ 8 - 1) := by decide
  rw [hm, and_two_pow_mul, Nat.and_pow_two_sub_one_eq_mod, Nat.shiftRight_eq_div_pow]
  norm_num

/-- Three bytes placed under the alpha byte `0xFF` by the two `|` of
`abgr_mul` do not overlap. -/
theorem or_bytes (R G B : Nat) (hR : R < 256) (hG : G < 256) (hB : B < 256) :
    (0xFF000000 ||| (65536 * B + R)) ||| (256 * G)
      = 0xFF000000 + 65536 * B + 256 * G + R := by
  have e1 : 65536 * B + R = 2 ^ 16 * B ||| R :=
    Nat.mul_add_lt_is_or (show R < 2 ^ 16 by omega) B
  have e2 : (256 * G + R : Nat) = 2 ^ 8 * G ||| R :=
    Nat.mul_add_lt_is_or (show R < 2 ^ 8 by omega) G
  have e3 : 65536 * B + (256 * G + R) = 2 ^ 16 * B ||| (256 * G + R) :=
    Nat.mul_add_lt_is_or (show 256 * G + R < 2 ^ 16 by omega) B
  have e4 : 0xFF000000 + (65536 * B + (256 * G + R))
      = 2 ^ 24 * 255 ||| (65536 * B + (256 * G + R)) :=
    Nat.mul_add_lt_is_or (show 65536 * B + (256 * G + R) < 2 ^ 24 by omega) 255
  have hA : (0xFF000000 : Nat) = 2 ^ 24 * 255 := by decide
  have hG8 : 256 * G = 2 ^ 8 * G := by norm_num
  calc (0xFF000000 ||| (65536 * B + R)) ||| (256 * G)
      = (2 ^ 24 * 255 ||| (2 ^ 16 * B ||| R)) ||| (2 ^ 8 * G) := by rw [e1, hA, hG8]
    _ = 2 ^ 24 * 255 ||| (2 ^ 16 * B ||| (2 ^ 8 * G ||| R)) := by
        rw [Nat.or_assoc, Nat.or_assoc, Nat.or_comm R]
    _ = 2 ^ 24 * 255 ||| (65536 * B + (256 * G + R)) := by rw [← e2, ← e3]
    _ = 0xFF000000 + 65536 * B + 256 * G + R := by rw [← e4]; omega

/-- The value of `abgr_mul` in terms of the three colour bytes of `col`. -/
theorem abgr_mul_eq (col a : Nat) (ha : a ≤ 255) :
    (col &&& 0xFF00FF) * a < 4294967296 ∧ (col &&& 0x00FF00) * a < 4294967296 ∧
    abgr_mul col a = 0xFF000000 + 65536 * ((col / 65536 % 256) * a / 256)
      + 256 * ((col / 256 % 256) * a / 256) + (col % 256) * a / 256 := by
  have hr : col % 256 < 256 := Nat.mod_lt _ (by decide)
  have hg : col / 256 % 256 < 256 := Nat.mod_lt _ (by decide)
  have hb : col / 65536 % 256 < 256 := Nat.mod_lt _ (by decide)
  have hra : (col % 256) * a ≤ 255 * 255 := Nat.mul_le_mul (by omega) ha
  have hga : (col / 256 % 256) * a ≤ 255 * 255 := Nat.mul_le_mul (by omega) ha
  have hba : (col / 65536 % 256) * a ≤ 255 * 255 := Nat.mul_le_mul (by omega) ha
  have p1 : (col &&& 0xFF00FF) * a
      = 65536 * ((col / 65536 % 256) * a) + (col % 256) * a := by
    rw [and_mask_rb]; ring
  have p2 : (col &&& 0x00FF00) * a = 256 * ((col / 256 % 256) * a) := by
    rw [and_mask_g]; ring
  generalize (col % 256) * a = ra at hra p1 ⊢
  generalize (col / 256 % 256) * a = ga at hga p2 ⊢
  generalize (col / 65536 % 256) * a = ba at hba p1 ⊢
  have o1 : (col &&& 0xFF00FF) * a < 4294967296 := by rw [p1]; omega
  have o2 : (col &&& 0x00FF00) * a < 4294967296 := by rw [p2]; omega
  refine ⟨o1, o2, ?_⟩
  unfold abgr_mul
  simp only
  rw [Nat.mod_eq_of_lt o1, Nat.mod_eq_of_lt o2, p1, p2, Nat.shiftRight_eq_div_pow,
    Nat.shiftRight_eq_div_pow, and_mask_rb, and_mask_g]
  have b1 : (65536 * ba + ra) / 2 ^ 8 / 65536 % 256 = ba / 256 := by omega
  have b2 : (65536 * ba + ra) / 2 ^ 8 % 256 = ra / 256 := by omega
  have b3 : 256 * ga / 2 ^ 8 / 256 % 256 = ga / 256 := by omega
  rw [b1, b2, b3]
  exact or_bytes (ra / 256) (ga / 256) (ba / 256) (by omega) (by omega) (by omega)

/-- C21: for every colour `col` (in particular every 32-bit one) and every
factor `a` with `0 <= a <= 255`, the two products of `abgr_mul` stay below
`2^32` (no 32-bit overflow), and the result is a 32-bit value whose alpha
byte is `0xFF` and whose three colour bytes are `floor(c * a / 256)` for the
corresponding byte `c` of `col`: each channel is scaled on its own, with no
carry into another one. -/
theorem abgr_mul_channels (col a : Nat) (ha : a ≤ 255) :
    (col &&& 0xFF00FF) * a < 4294967296 ∧ (col &&& 0x00FF00) * a < 4294967296 ∧
    abgr_mul col a < 4294967296 ∧
    abgr_mul col a / 16777216 % 256 = 0xFF ∧
    abgr_mul col a % 256 = (col % 256) * a / 256 ∧
    abgr_mul col a / 256 % 256 = (col / 256 % 256) * a / 256 ∧
    abgr_mul col a / 65536 % 256 = (col / 65536 % 256) * a / 256 := by
  obtain ⟨o1, o2, e⟩ := abgr_mul_eq col a ha
  have hra : (col % 256) * a ≤ 255 * 255 :=
    Nat.mul_le_mul (by have := Nat.mod_lt col (show 256 > 0 by decide); omega) ha
  have hga : (col / 256 % 256) * a ≤ 255 * 255 :=
    Nat.mul_le_mul (by have := Nat.mod_lt (col / 256) (show 256 > 0 by decide); omega) ha
  have hba : (col / 65536 % 256) * a ≤ 255 * 255 :=
    Nat.mul_le_mul (by have := Nat.mod_lt (col / 65536) (show 256 > 0 by decide); omega) ha
  generalize (col % 256) * a = ra at hra e ⊢
  generalize (col / 256 % 256) * a = ga at hga e ⊢
  generalize (col / 65536 % 256) * a = ba at hba e ⊢
  refine ⟨o1, o2, ?_, ?_, ?_, ?_, ?_⟩ <;> rw [e] <;> omega

/-- Instance of `abgr_mul_channels`: the wall colour `0xFFD0D0D0` and the
edge shade 192. -/
theorem abgr_mul_channels_witness :
    (192 : Nat) ≤ 255 ∧
    ((0xFFD0D0D0 &&& 0xFF00FF) * 192 < 4294967296 ∧
    (0xFFD0D0D0 &&& 0x00FF00) * 192 < 4294967296 ∧
    abgr_mul 0xFFD0D0D0 192 < 4294967296 ∧
    abgr_mul 0xFFD0D0D0 192 / 16777216 % 256 = 0xFF ∧
    abgr_mul 0xFFD0D0D0 192 % 256 = (0xFFD0D0D0 % 256) * 192 / 256 ∧
    abgr_mul 0xFFD0D0D0 192 / 256 % 256 = (0xFFD0D0D0 / 256 % 256) * 192 / 256 ∧
    abgr_mul 0xFFD0D0D0 192 / 65536 % 256 = (0xFFD0D0D0 / 65536 % 256) * 192 / 256) :=
  ⟨by decide, abgr_mul_channels 0xFFD0D0D0 192 (by decide)⟩

end Doom
